import Mathlib

/-!
# DKGL graphics layer: command queue, command buffer and binding set

A shallow embedding of the parts of the DKGL sources that the specification's
claims speak about, followed by the theorems that settle those claims.

* `DKFramework.Private.Vulkan` embeds `Private/Vulkan/CommandQueue.cpp`.
  Native Vulkan calls are oracles: the value a native call returns is an
  argument of the embedded function, and the calls that were made are recorded
  in the device state so that theorems can speak about them.
* `DKFramework.Private.Metal` holds the command-buffer state machine whose
  member functions are only declared in `Private/Metal/CommandBuffer.h`.
* `DKFramework` holds the binding-set table behind the pure-virtual interface of
  `DKShaderBindingSet.h`.
* `DKFoundation` embeds the member functions of `DKArray.h` over a memory block
  of slots, with placement construction, destruction, `memmove` and the
  allocator as explicit operations.
* The copy encoder of `Private/Vulkan/CopyCommandEncoder.h` is in
  `DKFramework.Private.Vulkan` with the command queue.
-/

namespace DKFramework

/-- Result of running a function body that may stop at a failed assertion. -/
inductive Outcome (α : Type) where
  | returned (value : α)
  | assertionFailed
  deriving DecidableEq, Repr

/-- Modelled from the spec: the `DKASSERT` macro, whose definition is not among the
sources. Section 7 of the spec describes assertion-style failure: a violated
assertion stops the call loudly where assertions are checked and is not
checked otherwise. `checked` selects the build; `expr` is the asserted
condition. -/
def DKASSERT (checked : Bool) (expr : Bool) : Outcome Unit :=
  if checked && !expr then Outcome.assertionFailed else Outcome.returned ()

namespace Private.Vulkan

/-- Vulkan result code (`VkResult`). -/
abbrev VkResult := Int

/-- Success code of the Vulkan API. -/
def VK_SUCCESS : VkResult := 0

/-- Device-lost error code of the Vulkan API. -/
def VK_ERROR_DEVICE_LOST : VkResult := -4

/-- Out-of-host-memory error code of the Vulkan API. -/
def VK_ERROR_OUT_OF_HOST_MEMORY : VkResult := -1

/-- Surface-lost error code of the Vulkan API. -/
def VK_ERROR_SURFACE_LOST_KHR : VkResult := -1000000000

/-- Vulkan non-dispatchable handle; zero is the null handle. -/
abbrev VkHandle := Nat

/-- Fence handle (`VkFence`). -/
abbrev VkFence := VkHandle

/-- The null handle of the Vulkan API. -/
def VK_NULL_HANDLE : VkHandle := 0

/-- Boolean of the Vulkan API (`VkBool32`); zero is `VK_FALSE`. -/
abbrev VkBool32 := Nat

/-- False value of `VkBool32`. -/
def VK_FALSE : VkBool32 := 0

/-- True value of `VkBool32`. -/
def VK_TRUE : VkBool32 := 1

/-- Graphics bit of `VkQueueFlags`. -/
def VK_QUEUE_GRAPHICS_BIT : Nat := 1

/-- Compute bit of `VkQueueFlags`. -/
def VK_QUEUE_COMPUTE_BIT : Nat := 2

/-- Transfer (copy) bit of `VkQueueFlags`. -/
def VK_QUEUE_TRANSFER_BIT : Nat := 4

/-- Identity of a `DKOperation` object; a `DKOperation*` argument is
`Option DKOperation`, `none` being the null pointer. -/
abbrev DKOperation := Nat

/-- One `VkSubmitInfo` record, identified by a number. -/
abbrev VkSubmitInfo := Nat

/-- The part of `QueueFamily` that `CommandQueue` reads: `FamilyIndex()`,
`properties.queueFlags` and `IsSupportPresentation()`. -/
structure QueueFamily where
  familyIndex : Nat
  queueFlags : Nat
  supportPresentation : Bool
  deriving DecidableEq, Repr

/-- The members of `CommandQueue` other than the back-reference to the device,
which the embedded functions receive as an explicit state. -/
structure CommandQueue where
  family : QueueFamily
  queue : VkHandle
  deriving DecidableEq, Repr

/-- The arguments of one `vkQueueSubmit` call. -/
structure QueueSubmitCall where
  queue : VkHandle
  submitCount : Nat
  submits : List VkSubmitInfo
  fence : VkFence
  deriving DecidableEq, Repr

/-- The state of the Vulkan `GraphicsDevice` that `CommandQueue::Submit` acts on:
the fences handed out by `GetFence`, the `vkQueueSubmit` calls made, and the
completion-handler registry, each in the order of the calls. -/
structure GraphicsDevice where
  fencesIssued : List VkFence
  queueSubmits : List QueueSubmitCall
  completionHandlers : List (VkFence × Option DKOperation)
  deriving DecidableEq, Repr

/-- `GraphicsDevice::GetFence`, whose body is not among the sources: the fence it
returns is the oracle value `newFence`; the call is recorded. -/
def GraphicsDevice.GetFence (newFence : VkFence) (dev : GraphicsDevice) :
    VkFence × GraphicsDevice :=
  (newFence, { dev with fencesIssued := dev.fencesIssued ++ [newFence] })

/-- The native call `vkQueueSubmit(queue, submitCount, submits, fence)`: its
result is the oracle value `err`; the call is recorded. -/
def vkQueueSubmit (err : VkResult) (queue : VkHandle) (submitCount : Nat)
    (submits : List VkSubmitInfo) (fence : VkFence) (dev : GraphicsDevice) :
    VkResult × GraphicsDevice :=
  (err, { dev with queueSubmits := dev.queueSubmits ++ [⟨queue, submitCount, submits, fence⟩] })

/-- Modelled from the spec: `GraphicsDevice::AddFenceCompletionHandler`, whose body
is not among the sources. The spec's completion registry is "an ordered
sequence of (backend-fence, optional-callback) pairs" in submission order:
the pair is added at the end. -/
def GraphicsDevice.AddFenceCompletionHandler (fence : VkFence) (op : Option DKOperation)
    (dev : GraphicsDevice) : GraphicsDevice :=
  { dev with completionHandlers := dev.completionHandlers ++ [(fence, op)] }

/-- `CommandQueue::Submit` (CommandQueue.cpp, lines 79-97). `newFence` is what
`GetFence` returns if it is called and `err` what `vkQueueSubmit` returns. The
device state is returned also when the body stops at the assertion, since the
calls made before it have happened. -/
def CommandQueue.Submit (q : CommandQueue) (checked : Bool) (newFence : VkFence)
    (err : VkResult) (submits : List VkSubmitInfo) (submitCount : Nat)
    (callback : Option DKOperation) (dev : GraphicsDevice) :
    Outcome Bool × GraphicsDevice :=
  -- VkFence fence = VK_NULL_HANDLE; if (callback) fence = dev->GetFence();
  let (fence, dev1) :=
    if callback.isSome then dev.GetFence newFence else (VK_NULL_HANDLE, dev)
  -- VkResult err = vkQueueSubmit(queue, submitCount, submits, fence);
  let (err, dev2) := vkQueueSubmit err q.queue submitCount submits fence dev1
  -- if (err != VK_SUCCESS) { DKLogE(...); DKASSERT(err == VK_SUCCESS); }
  match (if err ≠ VK_SUCCESS then DKASSERT checked (err == VK_SUCCESS) else Outcome.returned ()) with
  | Outcome.assertionFailed => (Outcome.assertionFailed, dev2)
  | Outcome.returned _ =>
    -- if (fence) dev->AddFenceCompletionHandler(fence, callback);
    let dev3 := if fence ≠ VK_NULL_HANDLE then dev2.AddFenceCompletionHandler fence callback else dev2
    -- return err == VK_SUCCESS;
    (Outcome.returned (err == VK_SUCCESS), dev3)

/-- The Vulkan `CommandBuffer` object built by `CreateCommandBuffer`: the
command pool and the queue it was created from. -/
structure CommandBuffer where
  commandPool : VkHandle
  queue : CommandQueue
  deriving DecidableEq, Repr

/-- `CommandQueue::CreateCommandBuffer` (CommandQueue.cpp, lines 31-49). `err`
and `commandPool` are what `vkCreateCommandPool` returns and writes; `none` is
the null object. -/
def CommandQueue.CreateCommandBuffer (q : CommandQueue) (err : VkResult)
    (commandPool : VkHandle) : Option CommandBuffer :=
  if err ≠ VK_SUCCESS then
    none
  else
    some ⟨commandPool, q⟩

/-- The Vulkan `SwapChain` object built by `CreateSwapChain`: the queue, the
window and the surface made by `Setup()`. -/
structure SwapChain where
  queue : CommandQueue
  window : Nat
  surface : VkHandle
  deriving DecidableEq, Repr

/-- The arguments of one `vkGetPhysicalDeviceSurfaceSupportKHR` call after the
physical device: the queue family index and the surface. -/
structure SurfaceSupportQuery where
  familyIndex : Nat
  surface : VkHandle
  deriving DecidableEq, Repr

/-- `CommandQueue::CreateSwapChain` (CommandQueue.cpp, lines 51-77). `setupOk`
and `surface` are the result of `SwapChain::Setup()` and the surface it made;
`err` and `supportedOut` are what `vkGetPhysicalDeviceSurfaceSupportKHR`
returns and writes if it is called. The second component lists the support
queries made. -/
def CommandQueue.CreateSwapChain (q : CommandQueue) (window : Nat) (setupOk : Bool)
    (surface : VkHandle) (err : VkResult) (supportedOut : VkBool32) :
    Option SwapChain × List SurfaceSupportQuery :=
  let swapChain : SwapChain := ⟨q, window, surface⟩
  if setupOk then
    if !q.family.supportPresentation then
      let supported := supportedOut
      let queries := [(⟨q.family.familyIndex, swapChain.surface⟩ : SurfaceSupportQuery)]
      if err ≠ VK_SUCCESS then
        (none, queries)
      else if supported = VK_FALSE then
        (none, queries)
      else
        (some swapChain, queries)
    else
      (some swapChain, [])
  else
    (none, [])

/-- The enumerators of `DKCommandQueue` that `Type()` names. Their header is not
among the sources, so their values are parameters; as enumerators of a
32-bit mask they fit 32 bits. -/
structure TypeFlags where
  Graphics : Nat
  Compute : Nat
  graphics_lt : Graphics < 2 ^ 32
  compute_lt : Compute < 2 ^ 32

/-- `CommandQueue::Type` (CommandQueue.cpp, lines 104-113); the name `Type` is
reserved in Lean. -/
def CommandQueue.QueueType (tf : TypeFlags) (q : CommandQueue) : Nat :=
  let flags := q.family.queueFlags
  let type := 0
  let type := if flags &&& VK_QUEUE_GRAPHICS_BIT ≠ 0 then type ||| tf.Graphics else type
  let type := if flags &&& VK_QUEUE_COMPUTE_BIT ≠ 0 then type ||| tf.Compute else type
  type

/-- Modelled from the spec: the completion reaper of the device, whose code is not
among the sources. Section 4.2: it "checks fence status in submission order
and invokes callbacks strictly in that order - even if a later submission's
fence is already signaled, its callback is deferred until all earlier ones
have fired". `signaled` is the fence status at the time of the pass; the
first component lists the entries whose callbacks the pass invokes, in order. -/
def GraphicsDevice.ReapCompletions (signaled : VkFence → Bool) (dev : GraphicsDevice) :
    List (VkFence × Option DKOperation) × GraphicsDevice :=
  (dev.completionHandlers.takeWhile (fun e => signaled e.1),
   { dev with completionHandlers := dev.completionHandlers.dropWhile (fun e => signaled e.1) })

/-- The oracle values and arguments of one `CommandQueue::Submit` call. -/
structure SubmitArgs where
  newFence : VkFence
  err : VkResult
  submits : List VkSubmitInfo
  submitCount : Nat
  callback : Option DKOperation

/-- What happens on a queue over time: a `Submit` call, or a pass of the
completion reaper that sees the fence status `signaled`. -/
inductive QueueEvent where
  | submit (a : SubmitArgs)
  | reap (signaled : VkFence → Bool)

/-- The state of a queue's history: the device, and the registry entries whose
callbacks have been invoked so far, in the order of invocation. -/
structure QueueHistory where
  dev : GraphicsDevice
  fired : List (VkFence × Option DKOperation)

/-- One event of a queue's history. -/
def QueueHistory.step (q : CommandQueue) (checked : Bool) (h : QueueHistory) :
    QueueEvent → QueueHistory
  | QueueEvent.submit a =>
    { h with dev := (q.Submit checked a.newFence a.err a.submits a.submitCount a.callback h.dev).2 }
  | QueueEvent.reap signaled =>
    let r := h.dev.ReapCompletions signaled
    { dev := r.2, fired := h.fired ++ r.1 }

/-- A sequence of events of a queue's history, in order. -/
def QueueHistory.run (q : CommandQueue) (checked : Bool) (h : QueueHistory)
    (events : List QueueEvent) : QueueHistory :=
  events.foldl (QueueHistory.step q checked) h

/-- The registry entry a `Submit` call is expected to leave: one entry for a call
with a callback and a non-null fence that is not stopped at the assertion. -/
def SubmitArgs.entries (checked : Bool) (a : SubmitArgs) : List (VkFence × Option DKOperation) :=
  if a.callback.isSome ∧ a.newFence ≠ VK_NULL_HANDLE ∧ (checked = false ∨ a.err = VK_SUCCESS) then
    [(a.newFence, a.callback)]
  else
    []

/-- The registry entries of the `Submit` calls of a history, in submission order. -/
def submittedEntries (checked : Bool) : List QueueEvent → List (VkFence × Option DKOperation)
  | [] => []
  | QueueEvent.submit a :: rest => a.entries checked ++ submittedEntries checked rest
  | QueueEvent.reap _ :: rest => submittedEntries checked rest

/-- A queue of a family with the graphics bit that is flagged for presentation. -/
def sampleQueue : CommandQueue := ⟨⟨0, VK_QUEUE_GRAPHICS_BIT, true⟩, 1⟩

/-- A device on which nothing has happened yet. -/
def idleDevice : GraphicsDevice := ⟨[], [], []⟩

/-- A queue of a family that has the transfer (copy) capability only. -/
def transferQueue : CommandQueue := ⟨⟨2, VK_QUEUE_TRANSFER_BIT, false⟩, 3⟩

/-- A queue of a family with all three capabilities, not flagged for presentation. -/
def universalQueue : CommandQueue :=
  ⟨⟨0, VK_QUEUE_GRAPHICS_BIT ||| VK_QUEUE_COMPUTE_BIT ||| VK_QUEUE_TRANSFER_BIT, false⟩, 1⟩

/-- Enumerator values with which the model can be evaluated. -/
def sampleTypeFlags : TypeFlags := ⟨1, 2, by decide, by decide⟩

/-- A successful submission with fence 7 and callback 5. -/
def firstSubmit : SubmitArgs := ⟨7, VK_SUCCESS, [11], 1, some 5⟩

/-- A successful submission with fence 8 and callback 6. -/
def secondSubmit : SubmitArgs := ⟨8, VK_SUCCESS, [12], 1, some 6⟩

/-- A submission with callback 5 for which `GetFence` returns the null handle. -/
def nullFenceSubmit : SubmitArgs := ⟨VK_NULL_HANDLE, VK_SUCCESS, [11], 1, some 5⟩

/-- A submission with fence 7 and callback 5 that reports a lost device. -/
def lostDeviceSubmit : SubmitArgs := ⟨7, VK_ERROR_DEVICE_LOST, [11], 1, some 5⟩

/-- Two reaper passes: the first sees only fence 8 signaled, the second sees
every fence signaled. -/
def laterFenceSignaledFirst : List QueueEvent :=
  [QueueEvent.reap (fun f => f == 8), QueueEvent.reap (fun _ => true)]

end Private.Vulkan

namespace Private.Metal

/-- The three encoder variants a command buffer can open; the Metal header names
the copy variant `Blit`. -/
inductive EncoderKind where
  | Render
  | Compute
  | Blit
  deriving DecidableEq, Repr

/-- Modelled from the spec: the encoder state machine "Open → Ended" of section 4.4. -/
inductive EncoderState where
  | Open
  | Ended
  deriving DecidableEq, Repr

/-- An encoder created on a command buffer. -/
structure Encoder where
  kind : EncoderKind
  state : EncoderState
  deriving DecidableEq, Repr

/-- Modelled from the spec: the recording state of a command buffer, section 3. -/
inductive RecordingState where
  | Recording
  | HasOpenEncoder
  | Ended
  | Submitted
  | Completed
  deriving DecidableEq, Repr

/-- Modelled from the spec: the state of a command buffer. `Private/Metal/CommandBuffer.h`
only declares the member functions; their bodies are not among the sources.
`encoders` lists the encoders created on the buffer in creation order (an
encoder is identified by its index), `commits` counts the times the buffer was
handed to its queue. -/
structure CommandBuffer where
  state : RecordingState
  encoders : List Encoder
  commits : Nat
  deriving DecidableEq, Repr

/-- Modelled from the spec: a command buffer as its queue creates it (the constructor
of CommandBuffer.h, line 26, has no body among the sources): it is recording,
has no encoder and has not been handed to the queue. -/
def CommandBuffer.fresh : CommandBuffer :=
  ⟨RecordingState.Recording, [], 0⟩

/-- Modelled from the spec: section 4.3, "each Create*Encoder call fails (returns
null) if an Encoder is already open on this buffer, or if the buffer has
already been committed"; otherwise a new open encoder is created and the
buffer has an open encoder. The result is the index of the new encoder. -/
def CommandBuffer.CreateEncoder (kind : EncoderKind) (cb : CommandBuffer) :
    Option Nat × CommandBuffer :=
  match cb.state with
  | RecordingState.HasOpenEncoder => (none, cb)
  | RecordingState.Submitted => (none, cb)
  | RecordingState.Completed => (none, cb)
  | _ =>
    (some cb.encoders.length,
     { cb with state := RecordingState.HasOpenEncoder,
               encoders := cb.encoders ++ [⟨kind, EncoderState.Open⟩] })

/-- Modelled from the spec: `CreateRenderCommandEncoder`, declared in CommandBuffer.h,
line 29, without a body among the sources; the render pass descriptor is a
number. -/
def CommandBuffer.CreateRenderCommandEncoder (_descriptor : Nat) (cb : CommandBuffer) :
    Option Nat × CommandBuffer :=
  cb.CreateEncoder EncoderKind.Render

/-- Modelled from the spec: `CreateComputeCommandEncoder`, declared in
CommandBuffer.h, line 30, without a body among the sources. -/
def CommandBuffer.CreateComputeCommandEncoder (cb : CommandBuffer) :
    Option Nat × CommandBuffer :=
  cb.CreateEncoder EncoderKind.Compute

/-- Modelled from the spec: `CreateBlitCommandEncoder`, declared in CommandBuffer.h,
line 31, without a body among the sources; it creates the copy encoder, the
spec's `CreateCopyCommandEncoder`. -/
def CommandBuffer.CreateBlitCommandEncoder (cb : CommandBuffer) :
    Option Nat × CommandBuffer :=
  cb.CreateEncoder EncoderKind.Blit

/-- Modelled from the spec: `EndEncoding()` on the encoder with index `i`, section
4.4: an open encoder becomes `Ended` and the buffer no longer has an open
encoder; on an encoder that is not open nothing changes. -/
def CommandBuffer.EndEncoding (i : Nat) (cb : CommandBuffer) : CommandBuffer :=
  match cb.encoders[i]? with
  | some ⟨kind, EncoderState.Open⟩ =>
    { cb with
        state := if cb.state = RecordingState.HasOpenEncoder then RecordingState.Ended else cb.state,
        encoders := cb.encoders.set i ⟨kind, EncoderState.Ended⟩ }
  | _ => cb

/-- Modelled from the spec: `Commit()`, section 4.3: it "fails if an Encoder is still
open, or if the buffer was already committed"; otherwise the buffer is handed
to the queue, and `accepted` tells whether the backend took it (a rejected
submission is reported by `false`, section 7). -/
def CommandBuffer.Commit (accepted : Bool) (cb : CommandBuffer) : Bool × CommandBuffer :=
  match cb.state with
  | RecordingState.HasOpenEncoder => (false, cb)
  | RecordingState.Submitted => (false, cb)
  | RecordingState.Completed => (false, cb)
  | _ =>
    if accepted then
      (true, { cb with state := RecordingState.Submitted, commits := cb.commits + 1 })
    else
      (false, { cb with commits := cb.commits + 1 })

/-- Modelled from the spec: the GPU finishing the work of a submitted buffer. -/
def CommandBuffer.Complete (cb : CommandBuffer) : CommandBuffer :=
  if cb.state = RecordingState.Submitted then { cb with state := RecordingState.Completed } else cb

/-- Modelled from the spec: `WaitUntilCompleted()`, section 4.3: on a committed
buffer it returns once the GPU has completed the work. Calling it before
`Commit()` is a contract violation; the model then reports `false` and
changes nothing. -/
def CommandBuffer.WaitUntilCompleted (cb : CommandBuffer) : Bool × CommandBuffer :=
  match cb.state with
  | RecordingState.Submitted => (true, cb.Complete)
  | RecordingState.Completed => (true, cb)
  | _ => (false, cb)

/-- The operations on a command buffer and its encoders. -/
inductive BufferOp where
  | createRender (descriptor : Nat)
  | createCompute
  | createBlit
  | endEncoding (i : Nat)
  | commit (accepted : Bool)
  | complete
  | waitUntilCompleted
  deriving DecidableEq, Repr

/-- The buffer after one operation. -/
def CommandBuffer.step (cb : CommandBuffer) : BufferOp → CommandBuffer
  | BufferOp.createRender d => (cb.CreateRenderCommandEncoder d).2
  | BufferOp.createCompute => cb.CreateComputeCommandEncoder.2
  | BufferOp.createBlit => cb.CreateBlitCommandEncoder.2
  | BufferOp.endEncoding i => cb.EndEncoding i
  | BufferOp.commit accepted => (cb.Commit accepted).2
  | BufferOp.complete => cb.Complete
  | BufferOp.waitUntilCompleted => cb.WaitUntilCompleted.2

/-- The buffer after a sequence of operations. -/
def CommandBuffer.run (cb : CommandBuffer) (ops : List BufferOp) : CommandBuffer :=
  ops.foldl CommandBuffer.step cb

/-- The number of encoders of the buffer that are open. -/
def CommandBuffer.openEncoders (cb : CommandBuffer) : Nat :=
  (cb.encoders.filter (fun e => e.state = EncoderState.Open)).length

/-- The buffer has been committed: it is submitted or completed. -/
def CommandBuffer.isCommitted (cb : CommandBuffer) : Prop :=
  cb.state = RecordingState.Submitted ∨ cb.state = RecordingState.Completed

/-- The state records an open encoder exactly when the list of encoders has
one, and the list never has more than one. -/
def CommandBuffer.consistent (cb : CommandBuffer) : Prop :=
  (cb.state = RecordingState.HasOpenEncoder ∧ cb.openEncoders = 1)
    ∨ (cb.state ≠ RecordingState.HasOpenEncoder ∧ cb.openEncoders = 0)

end Private.Metal

/-- Modelled from the spec: the kind of resource a binding slot is declared for. The
source type `DKShader::DescriptorType` is declared in a header that is not
among the sources; the spec speaks of buffer, texture and sampler bindings. -/
inductive ResourceKind where
  | Buffer
  | Texture
  | Sampler
  deriving DecidableEq, Repr

/-- Reference to a `DKGpuBuffer` object (a `DKGpuBuffer*`). -/
abbrev DKGpuBuffer := Nat

/-- Reference to a `DKTexture` object (a `DKTexture*`). -/
abbrev DKTexture := Nat

/-- Reference to a `DKSamplerState` object (a `DKSamplerState*`). -/
abbrev DKSamplerState := Nat

/-- `DKShaderBinding` (DKShaderBindingSet.h, lines 17-23). -/
structure DKShaderBinding where
  binding : Nat
  type : ResourceKind
  arrayLength : Nat
  immutableSamplers : Option DKSamplerState
  deriving DecidableEq, Repr

/-- `DKShaderBindingSetLayout` (DKShaderBindingSet.h, lines 24-28). -/
structure DKShaderBindingSetLayout where
  bindings : List DKShaderBinding
  deriving DecidableEq, Repr

/-- `DKShaderBindingSet::BufferInfo` (DKShaderBindingSet.h, lines 37-42). -/
structure BufferInfo where
  buffer : DKGpuBuffer
  offset : Nat
  length : Nat
  deriving DecidableEq, Repr

/-- A resource reference held in a slot of a binding set. -/
inductive BoundResource where
  | buffer (info : BufferInfo)
  | texture (texture : DKTexture)
  | sampler (sampler : DKSamplerState)
  deriving DecidableEq, Repr

/-- Modelled from the spec: the state behind the pure-virtual interface
`DKShaderBindingSet` (DKShaderBindingSet.h, lines 32-55), whose implementations
are not among the sources. Section 3: "a fixed-shape table (defined by a
BindingSetLayout) mapping slot to Resource Object reference(s)". -/
structure DKShaderBindingSet where
  layout : DKShaderBindingSetLayout
  table : Nat → List BoundResource

/-- Modelled from the spec: a binding set as the device creates it from a layout
(`CreateShaderBindingSet` has no body among the sources): every slot is empty. -/
def DKShaderBindingSet.create (layout : DKShaderBindingSetLayout) : DKShaderBindingSet :=
  ⟨layout, fun _ => []⟩

/-- The kind the layout declares for a slot, if the layout has the slot. -/
def DKShaderBindingSetLayout.kindOf (layout : DKShaderBindingSetLayout) (binding : Nat) :
    Option ResourceKind :=
  (layout.bindings.find? (fun b => b.binding = binding)).map (fun b => b.type)

/-- Modelled from the spec: the common part of the six setters, section 4.5: they
"overwrite the binding at a slot; binding a resource whose kind mismatches the
slot's declared kind is a contract violation". -/
def DKShaderBindingSet.bind (kind : ResourceKind) (binding : Nat)
    (resources : List BoundResource) (set : DKShaderBindingSet) : Outcome DKShaderBindingSet :=
  if set.layout.kindOf binding = some kind then
    Outcome.returned { set with table := Function.update set.table binding resources }
  else
    Outcome.assertionFailed

/-- Modelled from the spec: `SetBuffer`, pure virtual in DKShaderBindingSet.h, line 45:
it binds one buffer with its offset and length to a buffer slot. -/
def DKShaderBindingSet.SetBuffer (binding : Nat) (buffer : DKGpuBuffer) (offset length : Nat)
    (set : DKShaderBindingSet) : Outcome DKShaderBindingSet :=
  set.bind ResourceKind.Buffer binding [BoundResource.buffer ⟨buffer, offset, length⟩]

/-- Modelled from the spec: `SetBufferArray`, pure virtual in DKShaderBindingSet.h,
line 46: it binds the first `numBuffers` of the given buffers to a buffer slot. -/
def DKShaderBindingSet.SetBufferArray (binding : Nat) (numBuffers : Nat)
    (buffers : List BufferInfo) (set : DKShaderBindingSet) : Outcome DKShaderBindingSet :=
  set.bind ResourceKind.Buffer binding ((buffers.take numBuffers).map BoundResource.buffer)

/-- Modelled from the spec: `SetTexture`, pure virtual in DKShaderBindingSet.h, line
49: it binds one texture to a texture slot. -/
def DKShaderBindingSet.SetTexture (binding : Nat) (texture : DKTexture)
    (set : DKShaderBindingSet) : Outcome DKShaderBindingSet :=
  set.bind ResourceKind.Texture binding [BoundResource.texture texture]

/-- Modelled from the spec: `SetTextureArray`, pure virtual in DKShaderBindingSet.h,
line 50: it binds the first `numTextures` of the given textures to a texture
slot. -/
def DKShaderBindingSet.SetTextureArray (binding : Nat) (numTextures : Nat)
    (textures : List DKTexture) (set : DKShaderBindingSet) : Outcome DKShaderBindingSet :=
  set.bind ResourceKind.Texture binding ((textures.take numTextures).map BoundResource.texture)

/-- Modelled from the spec: `SetSamplerState`, pure virtual in DKShaderBindingSet.h,
line 53: it binds one sampler to a sampler slot. -/
def DKShaderBindingSet.SetSamplerState (binding : Nat) (sampler : DKSamplerState)
    (set : DKShaderBindingSet) : Outcome DKShaderBindingSet :=
  set.bind ResourceKind.Sampler binding [BoundResource.sampler sampler]

/-- Modelled from the spec: `SetSamplerStateArray`, pure virtual in
DKShaderBindingSet.h, line 54: it binds the first `numSamplers` of the given
samplers to a sampler slot. -/
def DKShaderBindingSet.SetSamplerStateArray (binding : Nat) (numSamplers : Nat)
    (samplers : List DKSamplerState) (set : DKShaderBindingSet) : Outcome DKShaderBindingSet :=
  set.bind ResourceKind.Sampler binding ((samplers.take numSamplers).map BoundResource.sampler)

/-- Modelled from the spec: the query of section 8, property 5, "querying the active
binding at slot K": the resource references the table holds at the slot. The
interface in the sources declares no query. -/
def DKShaderBindingSet.activeBinding (set : DKShaderBindingSet) (binding : Nat) :
    List BoundResource :=
  set.table binding

/-- The buffer reference that is active at a slot, if the slot holds a buffer. -/
def DKShaderBindingSet.activeBuffer (set : DKShaderBindingSet) (binding : Nat) :
    Option DKGpuBuffer :=
  match set.activeBinding binding with
  | BoundResource.buffer info :: _ => some info.buffer
  | _ => none

/-- A call of one of the six setters of a binding set. -/
inductive BindingCall where
  | setBuffer (binding : Nat) (buffer : DKGpuBuffer) (offset length : Nat)
  | setBufferArray (binding : Nat) (numBuffers : Nat) (buffers : List BufferInfo)
  | setTexture (binding : Nat) (texture : DKTexture)
  | setTextureArray (binding : Nat) (numTextures : Nat) (textures : List DKTexture)
  | setSamplerState (binding : Nat) (sampler : DKSamplerState)
  | setSamplerStateArray (binding : Nat) (numSamplers : Nat) (samplers : List DKSamplerState)
  deriving DecidableEq, Repr

/-- The slot a setter call binds. -/
def BindingCall.slot : BindingCall → Nat
  | BindingCall.setBuffer b _ _ _ => b
  | BindingCall.setBufferArray b _ _ => b
  | BindingCall.setTexture b _ => b
  | BindingCall.setTextureArray b _ _ => b
  | BindingCall.setSamplerState b _ => b
  | BindingCall.setSamplerStateArray b _ _ => b

/-- The outcome of a setter call on a binding set. -/
def DKShaderBindingSet.call (set : DKShaderBindingSet) : BindingCall → Outcome DKShaderBindingSet
  | BindingCall.setBuffer b buffer offset length => set.SetBuffer b buffer offset length
  | BindingCall.setBufferArray b n buffers => set.SetBufferArray b n buffers
  | BindingCall.setTexture b texture => set.SetTexture b texture
  | BindingCall.setTextureArray b n textures => set.SetTextureArray b n textures
  | BindingCall.setSamplerState b sampler => set.SetSamplerState b sampler
  | BindingCall.setSamplerStateArray b n samplers => set.SetSamplerStateArray b n samplers

/-- The binding set after a setter call; a call that is a contract violation
leaves the set as it was. -/
def DKShaderBindingSet.step (set : DKShaderBindingSet) (c : BindingCall) : DKShaderBindingSet :=
  match set.call c with
  | Outcome.returned set1 => set1
  | Outcome.assertionFailed => set

/-- The binding set after a sequence of setter calls. -/
def DKShaderBindingSet.run (set : DKShaderBindingSet) (calls : List BindingCall) :
    DKShaderBindingSet :=
  calls.foldl DKShaderBindingSet.step set

/-- A layout with a buffer slot 0, a texture slot 1 and a sampler slot 2. -/
def sampleLayout : DKShaderBindingSetLayout :=
  ⟨[⟨0, ResourceKind.Buffer, 1, none⟩, ⟨1, ResourceKind.Texture, 1, none⟩,
    ⟨2, ResourceKind.Sampler, 1, none⟩]⟩

end DKFramework

namespace DKFoundation

/-- How the body of a `DKArray` member function can stop without returning: at a
failed debug assertion, or at an access outside the allocated block or to an
object that is not there (undefined behaviour in C++). -/
inductive Fault where
  | assertion
  | invalidAccess
  deriving DecidableEq, Repr

/-- Modelled from the spec: the debug assertions `DKASSERT_DEBUG` and
`DKASSERT_DESC_DEBUG`, whose definitions are not among the sources; as
`DKFramework.DKASSERT`, with `debug` telling whether they are checked. -/
def DKASSERT_DEBUG (debug : Bool) (expr : Bool) : Except Fault Unit :=
  match DKFramework.DKASSERT debug expr with
  | DKFramework.Outcome.returned _ => Except.ok ()
  | DKFramework.Outcome.assertionFailed => Except.error Fault.assertion

/-- A block of memory for `size` objects of type `VALUE`, as the allocator hands
it out: slot `i` holds a constructed object (`some`) or raw memory (`none`). -/
structure Block (α : Type) where
  size : Nat
  slot : Nat → Option α

/-- `Allocator::Alloc(sizeof(VALUE) * c)`: a fresh block of raw memory. -/
def Block.alloc {α : Type} (c : Nat) : Block α :=
  ⟨c, fun _ => none⟩

/-- `Allocator::Realloc(data, sizeof(VALUE) * c)`: a block of the new size that
keeps the old contents as far as they fit. -/
def Block.realloc {α : Type} (c : Nat) (b : Block α) : Block α :=
  ⟨c, fun j => if j < b.size then b.slot j else none⟩

/-- The placement `new(std::addressof(data[i])) VALUE(v)`. -/
def Block.construct {α : Type} (i : Nat) (v : α) (b : Block α) : Except Fault (Block α) :=
  if i < b.size then
    Except.ok ⟨b.size, fun j => if j = i then some v else b.slot j⟩
  else
    Except.error Fault.invalidAccess

/-- The destructor call `data[i].~VALUE()`: the slot is raw memory afterwards. -/
def Block.destroy {α : Type} (i : Nat) (b : Block α) : Except Fault (Block α) :=
  if i < b.size ∧ (b.slot i).isSome then
    Except.ok ⟨b.size, fun j => if j = i then none else b.slot j⟩
  else
    Except.error Fault.invalidAccess

/-- Reading the object `data[i]`. -/
def Block.read {α : Type} (i : Nat) (b : Block α) : Except Fault α :=
  if i < b.size then
    match b.slot i with
    | some v => Except.ok v
    | none => Except.error Fault.invalidAccess
  else
    Except.error Fault.invalidAccess

/-- The call `memmove(std::addressof(data[dst]), std::addressof(data[src]),
sizeof(VALUE) * n)`: `n` slots are copied, the ranges may overlap. -/
def Block.memmove {α : Type} (dst src n : Nat) (b : Block α) : Except Fault (Block α) :=
  if n = 0 ∨ (dst + n ≤ b.size ∧ src + n ≤ b.size) then
    Except.ok ⟨b.size, fun j => if dst ≤ j ∧ j < dst + n then b.slot (src + (j - dst)) else b.slot j⟩
  else
    Except.error Fault.invalidAccess

/-- The data members of `DKArray` (DKArray.h, lines 719-721); `data = none` is the
null pointer. Sizes and indices are natural numbers: they count objects that
exist in memory, and the code adds them only to each other. -/
structure DKArray (α : Type) where
  data : Option (Block α)
  count : Nat
  capacity : Nat

/-- The enumerator `InitialSize` (DKArray.h, line 69). -/
def DKArray.InitialSize : Nat := 4

/-- The default constructor `DKArray()` (DKArray.h, lines 92-95). -/
def DKArray.new {α : Type} : DKArray α :=
  ⟨none, 0, 0⟩

/-- An access to the block through the `data` pointer; a null pointer cannot be
followed. -/
def DKArray.withData {α : Type} (f : Block α → Except Fault (Block α)) (a : DKArray α) :
    Except Fault (DKArray α) :=
  match a.data with
  | some b =>
    match f b with
    | Except.ok b1 => Except.ok { a with data := some b1 }
    | Except.error e => Except.error e
  | none => Except.error Fault.invalidAccess

/-- `DKArray::ReserveNL` (DKArray.h, lines 689-706). `allocOk` tells whether the
allocator returns memory. -/
def DKArray.ReserveNL {α : Type} (debug allocOk : Bool) (c : Nat) (a : DKArray α) :
    Except Fault (DKArray α) :=
  if c ≤ a.capacity then
    Except.ok a
  else
    let old := a.data
    let data : Option (Block α) :=
      match a.data with
      | some b => if allocOk then some (b.realloc c) else none
      | none => if allocOk then some (Block.alloc c) else none
    match DKASSERT_DEBUG debug data.isSome with
    | Except.error e => Except.error e
    | Except.ok _ =>
      if data.isSome then
        Except.ok { a with data := data, capacity := c }
      else
        Except.ok { a with data := old }

/-- `DKArray::ReserveItemCapsNL` (DKArray.h, lines 707-718). -/
def DKArray.ReserveItemCapsNL {α : Type} (debug allocOk : Bool) (c : Nat) (a : DKArray α) :
    Except Fault (DKArray α) :=
  if c > 0 then
    let minimum := if c > DKArray.InitialSize then c else DKArray.InitialSize
    if a.capacity < c + a.count ∨ a.count = a.capacity then
      a.ReserveNL debug allocOk (a.count + (if a.count / 2 > minimum then a.count / 2 else minimum))
    else
      Except.ok a
  else
    Except.ok a

/-- `DKArray::Add(const VALUE&)` (DKArray.h, lines 165-172). -/
def DKArray.Add {α : Type} (debug allocOk : Bool) (value : α) (a : DKArray α) :
    Except Fault (Nat × DKArray α) :=
  match a.ReserveItemCapsNL debug allocOk 1 with
  | Except.error e => Except.error e
  | Except.ok a1 =>
    match a1.withData (Block.construct a1.count value) with
    | Except.error e => Except.error e
    | Except.ok a2 => Except.ok (a2.count, { a2 with count := a2.count + 1 })

/-- An argument of reference type (`const VALUE&` or `VALUE&`): the object it
names is outside the block of the array, where the member function does not
touch it, or it is the element `data[index]` of the array the member function
is called on. -/
inductive Ref (α : Type) where
  | outside (v : α)
  | element (index : Nat)

/-- An argument of type `const VALUE*`: it points to an array outside the block of
the `DKArray`, where the member function does not touch it, or to the slot
`data[offset]` of the array the member function is called on. A null pointer
is a pointer to an outside array with nothing to read. -/
inductive Source (α : Type) where
  | outside (values : List α)
  | inside (offset : Nat)

/-- `DKArray::Value(Index)` (DKArray.h, lines 410-416): the reference
`data[index]`. -/
def DKArray.Value {α : Type} (debug : Bool) (index : Nat) (a : DKArray α) :
    Except Fault (Ref α) :=
  match DKASSERT_DEBUG debug (decide (index ≥ 0)) with
  | Except.error e => Except.error e
  | Except.ok _ =>
    match DKASSERT_DEBUG debug (decide (a.count > index)) with
    | Except.error e => Except.error e
    | Except.ok _ => Except.ok (Ref.element index)

/-- `DKArray::operator const VALUE*` (DKArray.h, lines 431-436), as a pointer
seen by a member function of the same array. -/
def DKArray.pointer {α : Type} (a : DKArray α) : Source α :=
  if a.count > 0 then Source.inside 0 else Source.outside []

/-- Reading the object a reference names, at the time of the read. `moved` tells
whether the block was reallocated after the reference was formed: a reference
into the old block can then not be followed. -/
def DKArray.readRef {α : Type} (moved : Bool) (r : Ref α) (a : DKArray α) : Except Fault α :=
  match r with
  | Ref.outside v => Except.ok v
  | Ref.element k =>
    if moved then
      Except.error Fault.invalidAccess
    else
      match a.data with
      | some b => b.read k
      | none => Except.error Fault.invalidAccess

/-- Reading `value[i]` through a pointer, at the time of the read; `moved` as for
`readRef`. Reading past the end of an outside array is an invalid access. -/
def DKArray.readSource {α : Type} (moved : Bool) (value : Source α) (i : Nat) (a : DKArray α) :
    Except Fault α :=
  match value with
  | Source.outside values =>
    match values[i]? with
    | some v => Except.ok v
    | none => Except.error Fault.invalidAccess
  | Source.inside offset =>
    if moved then
      Except.error Fault.invalidAccess
    else
      match a.data with
      | some b => b.read (offset + i)
      | none => Except.error Fault.invalidAccess

/-- `DKArray::Insert(const VALUE&, Index)` (DKArray.h, lines 221-233). The
reference `value` is read at line 230, after the reservation and after the
`memmove`. -/
def DKArray.Insert {α : Type} (debug allocOk : Bool) (value : Ref α) (pos : Nat)
    (a : DKArray α) : Except Fault (Nat × DKArray α) :=
  match a.ReserveItemCapsNL debug allocOk 1 with
  | Except.error e => Except.error e
  | Except.ok a1 =>
    let moved := decide (a1.capacity ≠ a.capacity)
    let pos := if pos > a1.count then a1.count else pos
    match (if pos < a1.count then a1.withData (Block.memmove (pos + 1) pos (a1.count - pos))
           else Except.ok a1) with
    | Except.error e => Except.error e
    | Except.ok a2 =>
      match a2.readRef moved value with
      | Except.error e => Except.error e
      | Except.ok v =>
        match a2.withData (Block.construct pos v) with
        | Except.error e => Except.error e
        | Except.ok a3 => Except.ok (pos, { a3 with count := a3.count + 1 })

/-- The loop `for (Index i = 0; i < s; i++) new(std::addressof(data[pos+i]))
VALUE(value[i]);` from index `i` on, with `n = s - i` iterations left. Each
`value[i]` is read when its iteration runs. -/
def DKArray.constructFrom {α : Type} (moved : Bool) (value : Source α) (pos : Nat) :
    Nat → Nat → DKArray α → Except Fault (DKArray α)
  | 0, _, a => Except.ok a
  | n + 1, i, a =>
    match a.readSource moved value i with
    | Except.error e => Except.error e
    | Except.ok v =>
      match a.withData (Block.construct (pos + i) v) with
      | Except.error e => Except.error e
      | Except.ok a1 => DKArray.constructFrom moved value pos n (i + 1) a1

/-- `DKArray::Insert(const VALUE*, size_t, Index)` (DKArray.h, lines 247-260). The
elements `value[i]` are read in the loop of lines 256-257, after the
reservation and after the `memmove`. -/
def DKArray.InsertArray {α : Type} (debug allocOk : Bool) (value : Source α) (s : Nat)
    (pos : Nat) (a : DKArray α) : Except Fault (Nat × DKArray α) :=
  match a.ReserveItemCapsNL debug allocOk s with
  | Except.error e => Except.error e
  | Except.ok a1 =>
    let moved := decide (a1.capacity ≠ a.capacity)
    let pos := if pos > a1.count then a1.count else pos
    match (if pos < a1.count then a1.withData (Block.memmove (pos + s) pos (a1.count - pos))
           else Except.ok a1) with
    | Except.error e => Except.error e
    | Except.ok a2 =>
      match DKArray.constructFrom moved value pos s 0 a2 with
      | Except.error e => Except.error e
      | Except.ok a3 => Except.ok (pos, { a3 with count := a3.count + s })

/-- `DKArray::Insert(const DKArray&, Index)` (DKArray.h, lines 214-220), called
with the array itself as the argument: it passes on the array's own pointer
and count. -/
def DKArray.InsertSelf {α : Type} (debug allocOk : Bool) (pos : Nat) (a : DKArray α) :
    Except Fault (Nat × DKArray α) :=
  a.InsertArray debug allocOk a.pointer a.count pos

/-- The loop `for (const VALUE& v : il) { new(std::addressof(data[pos])) VALUE(v);
pos++; }`; the result carries the final value of `pos`. -/
def DKArray.constructEach {α : Type} : List α → Nat → DKArray α → Except Fault (Nat × DKArray α)
  | [], pos, a => Except.ok (pos, a)
  | v :: rest, pos, a =>
    match a.withData (Block.construct pos v) with
    | Except.error e => Except.error e
    | Except.ok a1 => DKArray.constructEach rest (pos + 1) a1

/-- `DKArray::Insert(std::initializer_list<VALUE>, Index)` (DKArray.h, lines
275-292). -/
def DKArray.InsertList {α : Type} (debug allocOk : Bool) (il : List α) (pos : Nat)
    (a : DKArray α) : Except Fault (Nat × DKArray α) :=
  let s := il.length
  match a.ReserveItemCapsNL debug allocOk s with
  | Except.error e => Except.error e
  | Except.ok a1 =>
    let pos := if pos > a1.count then a1.count else pos
    match (if pos < a1.count then a1.withData (Block.memmove (pos + s) pos (a1.count - pos))
           else Except.ok a1) with
    | Except.error e => Except.error e
    | Except.ok a2 =>
      match DKArray.constructEach il pos a2 with
      | Except.error e => Except.error e
      | Except.ok (pos1, a3) => Except.ok (pos1 - s, { a3 with count := a3.count + s })

/-- `DKArray::Remove(Index)` (DKArray.h, lines 293-305). -/
def DKArray.Remove {α : Type} (pos : Nat) (a : DKArray α) : Except Fault (Nat × DKArray α) :=
  if pos < a.count then
    match a.withData (Block.destroy pos) with
    | Except.error e => Except.error e
    | Except.ok a1 =>
      match (if a1.count - pos > 1 then
               a1.withData (Block.memmove pos (pos + 1) (a1.count - pos - 1))
             else Except.ok a1) with
      | Except.error e => Except.error e
      | Except.ok a2 => Except.ok (a2.count - 1, { a2 with count := a2.count - 1 })
  else
    Except.ok (a.count, a)

/-- The loop `for (; i < count - pos && i < c; i++) data[pos+i].~VALUE();` from
index `i` on, where `n = count - pos - i`; the result carries the final `i`. -/
def DKArray.destroyFrom {α : Type} (pos c : Nat) :
    Nat → Nat → DKArray α → Except Fault (Nat × DKArray α)
  | 0, i, a => Except.ok (i, a)
  | n + 1, i, a =>
    if i < c then
      match a.withData (Block.destroy (pos + i)) with
      | Except.error e => Except.error e
      | Except.ok a1 => DKArray.destroyFrom pos c n (i + 1) a1
    else
      Except.ok (i, a)

/-- `DKArray::Remove(Index, size_t)` (DKArray.h, lines 306-320). -/
def DKArray.RemoveCount {α : Type} (pos c : Nat) (a : DKArray α) :
    Except Fault (Nat × DKArray α) :=
  if pos < a.count then
    match DKArray.destroyFrom pos c (a.count - pos) 0 a with
    | Except.error e => Except.error e
    | Except.ok (i, a1) =>
      match (if i > 0 then a1.withData (Block.memmove pos (pos + i) (a1.count - pos - i))
             else Except.ok a1) with
      | Except.error e => Except.error e
      | Except.ok a2 => Except.ok (a2.count - i, { a2 with count := a2.count - i })
  else
    Except.ok (a.count, a)

/-- `DKArray::Count` (DKArray.h, lines 329-333). -/
def DKArray.Count {α : Type} (a : DKArray α) : Nat :=
  a.count

/-- `DKArray::Capacity` (DKArray.h, lines 334-338). -/
def DKArray.Capacity {α : Type} (a : DKArray α) : Nat :=
  a.capacity

/-- An assignment through a reference to an object that is there. -/
def Block.assign {α : Type} (i : Nat) (v : α) (b : Block α) : Except Fault (Block α) :=
  if i < b.size ∧ (b.slot i).isSome then
    Except.ok ⟨b.size, fun j => if j = i then some v else b.slot j⟩
  else
    Except.error Fault.invalidAccess

/-- `DKArray::CopyValue` (DKArray.h, lines 400-409). The result is the returned
boolean, the output argument `value` after the call (an outside variable with
its final value, or the element it names), and the array after the call: the
assignment `value = data[index]` of line 405 goes through the reference, which
may name an element of the array. -/
def DKArray.CopyValue {α : Type} (value : Ref α) (index : Nat) (a : DKArray α) :
    Except Fault (Bool × Ref α × DKArray α) :=
  if a.count > index then
    match a.data with
    | some b =>
      match b.read index with
      | Except.error e => Except.error e
      | Except.ok v =>
        match value with
        | Ref.outside _ => Except.ok (true, Ref.outside v, a)
        | Ref.element k =>
          match a.withData (Block.assign k v) with
          | Except.error e => Except.error e
          | Except.ok a1 => Except.ok (true, Ref.element k, a1)
    | none => Except.error Fault.invalidAccess
  else
    Except.ok (false, value, a)

end DKFoundation

namespace DKFoundation

/-- An enumerator given to `EnumerateForward`, with the state `σ` it acts on. A
one-argument enumerator receives `VALUE&` and may assign to it. A two-argument
enumerator receives `VALUE&` and `bool*`: it is given the boolean the pointer
refers to and returns the value it leaves there. -/
inductive Enumerator (σ α : Type) where
  | one (f : σ → α → σ × α)
  | two (f : σ → α → Bool → σ × α × Bool)

/-- A record of one call of the enumerator: the index and the element it was
called on, and the boolean `stop` after the call. -/
structure EnumeratorCall (α : Type) where
  index : Nat
  value : α
  stop : Bool
  deriving DecidableEq, Repr

/-- The loop `for (Index i = 0; i < count; ++i) enumerator(data[i]);` from index
`i` on, with `n = count - i`; the calls made are recorded. -/
def DKArray.enumerateForwardOneFrom {σ α : Type} (f : σ → α → σ × α) :
    Nat → Nat → σ → DKArray α → Except Fault (σ × DKArray α × List (EnumeratorCall α))
  | 0, _, s, a => Except.ok (s, a, [])
  | n + 1, i, s, a =>
    match a.data with
    | none => Except.error Fault.invalidAccess
    | some b =>
      match b.read i with
      | Except.error e => Except.error e
      | Except.ok v =>
        match a.withData (Block.assign i (f s v).2) with
        | Except.error e => Except.error e
        | Except.ok a1 =>
          match DKArray.enumerateForwardOneFrom f n (i + 1) (f s v).1 a1 with
          | Except.error e => Except.error e
          | Except.ok (s2, a2, calls) => Except.ok (s2, a2, ⟨i, v, false⟩ :: calls)

/-- `DKArray::EnumerateForward(T&&, DKNumber<1>)` (DKArray.h, lines 634-639). -/
def DKArray.EnumerateForwardOne {σ α : Type} (f : σ → α → σ × α) (s : σ) (a : DKArray α) :
    Except Fault (σ × DKArray α × List (EnumeratorCall α)) :=
  DKArray.enumerateForwardOneFrom f a.count 0 s a

/-- The loop `for (Index i = 0; i < count && !stop; ++i) enumerator(data[i],
&stop);` from index `i` on, with `n = count - i` and the current value of
`stop`; the calls made are recorded. -/
def DKArray.enumerateForwardTwoFrom {σ α : Type} (f : σ → α → Bool → σ × α × Bool) :
    Nat → Nat → Bool → σ → DKArray α → Except Fault (σ × DKArray α × List (EnumeratorCall α))
  | 0, _, _, s, a => Except.ok (s, a, [])
  | n + 1, i, stop, s, a =>
    if !stop then
      match a.data with
      | none => Except.error Fault.invalidAccess
      | some b =>
        match b.read i with
        | Except.error e => Except.error e
        | Except.ok v =>
          match a.withData (Block.assign i (f s v stop).2.1) with
          | Except.error e => Except.error e
          | Except.ok a1 =>
            match DKArray.enumerateForwardTwoFrom f n (i + 1) (f s v stop).2.2 (f s v stop).1 a1 with
            | Except.error e => Except.error e
            | Except.ok (s2, a2, calls) => Except.ok (s2, a2, ⟨i, v, (f s v stop).2.2⟩ :: calls)
    else
      Except.ok (s, a, [])

/-- `DKArray::EnumerateForward(T&&, DKNumber<2>)` (DKArray.h, lines 660-666). -/
def DKArray.EnumerateForwardTwo {σ α : Type} (f : σ → α → Bool → σ × α × Bool) (s : σ)
    (a : DKArray α) : Except Fault (σ × DKArray α × List (EnumeratorCall α)) :=
  DKArray.enumerateForwardTwoFrom f a.count 0 false s a

/-- `DKArray::EnumerateForward(T&&)` (DKArray.h, lines 591-603): the call is
dispatched on the number of parameters of the enumerator. -/
def DKArray.EnumerateForward {σ α : Type} (enumerator : Enumerator σ α) (s : σ) (a : DKArray α) :
    Except Fault (σ × DKArray α × List (EnumeratorCall α)) :=
  match enumerator with
  | Enumerator.one f => a.EnumerateForwardOne f s
  | Enumerator.two f => a.EnumerateForwardTwo f s

/-- The object in slot `i` of the array's block, if the block has the slot and an
object is there. -/
def DKArray.slot {α : Type} (a : DKArray α) (i : Nat) : Option α :=
  match a.data with
  | some b => if i < b.size then b.slot i else none
  | none => none

/-- The size of the block `data` points to; zero for the null pointer. -/
def DKArray.blockSize {α : Type} (a : DKArray α) : Nat :=
  match a.data with
  | some b => b.size
  | none => 0

/-- The array holds the contents `xs`: `Count()` is the length of `xs`, the block
has `capacity` slots of which the first `count` hold the elements of `xs` in
order. -/
def DKArray.Holds {α : Type} (a : DKArray α) (xs : List α) : Prop :=
  a.count = xs.length ∧ a.count ≤ a.capacity ∧ a.blockSize = a.capacity
    ∧ ∀ i, i < a.count → a.slot i = xs[i]?

/-- An array with a block of `capacity` slots that holds `xs`. -/
def DKArray.ofList {α : Type} (xs : List α) (capacity : Nat) : DKArray α :=
  ⟨some ⟨capacity, fun i => xs[i]?⟩, xs.length, capacity⟩

/-- The first `Count()` slots of the array, in order. -/
def DKArray.contents {α : Type} (a : DKArray α) : List (Option α) :=
  (List.range a.count).map a.slot

/-- A two-argument enumerator that counts its calls and sets `stop` on the
element `x`. -/
def stopAt (x : Nat) : Enumerator Nat Nat :=
  Enumerator.two (fun s v _ => (s + 1, v, v == x))

end DKFoundation

namespace DKFramework.Private.Vulkan

/-- Modelled from the spec: a command recorded by the copy encoder. The source type
`EncoderCommand` (CopyCommandEncoder.h, line 25) is a function object whose
instances are made in a file that is not among the sources; of the copy
commands of section 4.4 the model has the buffer fill and the
buffer-to-buffer copy. -/
inductive EncoderCommand where
  | fillBuffer (buffer : DKGpuBuffer) (offset length value : Nat)
  | copyBufferToBuffer (src : DKGpuBuffer) (srcOffset : Nat) (dst : DKGpuBuffer)
      (dstOffset size : Nat)
  deriving DecidableEq, Repr

/-- The members of `CopyCommandEncoder::Encoder` (CopyCommandEncoder.h, lines
26-44): the retained objects and the recorded commands. -/
structure CopyCommandEncoder.Encoder where
  buffers : List DKGpuBuffer
  textures : List DKTexture
  events : List Nat
  semaphores : List Nat
  commands : List EncoderCommand
  setupCommands : List EncoderCommand
  cleanupCommands : List EncoderCommand
  deriving DecidableEq, Repr

/-- The member `encoder` of `CopyCommandEncoder` (CopyCommandEncoder.h, line 45);
`none` is the null object. -/
structure CopyCommandEncoder where
  encoder : Option CopyCommandEncoder.Encoder
  deriving DecidableEq, Repr

/-- `CopyCommandEncoder::IsCompleted` (CopyCommandEncoder.h, line 51). -/
def CopyCommandEncoder.IsCompleted (e : CopyCommandEncoder) : Bool :=
  e.encoder == none

/-- The contents of the GPU buffers: the bytes of each buffer. -/
abbrev GpuMemory := DKGpuBuffer → List Nat

/-- The bytes of a buffer after `length` bytes from `offset` on are set to
`value`; `i` is the index of the first byte of the list. -/
def fillBytes (offset length value : Nat) : Nat → List Nat → List Nat
  | _, [] => []
  | i, x :: rest =>
    (if offset ≤ i ∧ i < offset + length then value else x)
      :: fillBytes offset length value (i + 1) rest

/-- The bytes of a buffer after the bytes `source` are copied to it from
`offset` on; `i` is the index of the first byte of the list. -/
def copyBytes (offset : Nat) (source : List Nat) : Nat → List Nat → List Nat
  | _, [] => []
  | i, x :: rest =>
    (if offset ≤ i then (source[i - offset]?).getD x else x)
      :: copyBytes offset source (i + 1) rest

/-- Modelled from the spec: what a recorded command does to the GPU buffers when the
GPU executes it. -/
def EncoderCommand.execute (mem : GpuMemory) : EncoderCommand → GpuMemory
  | EncoderCommand.fillBuffer buffer offset length value =>
    fun b => if b = buffer then fillBytes offset length (value % 256) 0 (mem b) else mem b
  | EncoderCommand.copyBufferToBuffer src srcOffset dst dstOffset size =>
    fun b =>
      if b = dst then copyBytes dstOffset (((mem src).drop srcOffset).take size) 0 (mem b)
      else mem b

/-- Modelled from the spec: the effect on the GPU buffers of the commands an encoder
has recorded, executed in encoding order (`Encoder::Encode`,
CopyCommandEncoder.h, line 32, has no body among the sources). -/
def CopyCommandEncoder.Encoder.execute (enc : CopyCommandEncoder.Encoder) (mem : GpuMemory) :
    GpuMemory :=
  (enc.setupCommands ++ enc.commands ++ enc.cleanupCommands).foldl EncoderCommand.execute mem

/-- Modelled from the spec: `CopyCommandEncoder::FillBuffer`, declared in
CopyCommandEncoder.h, lines 83-86, without a body among the sources.
`bufferLength` is the length of the buffer object. Section 4.4: the command
is accepted while the encoder is open and is "validated for source/destination
region bounds; out-of-range offsets/sizes are a contract violation"; section
8(8): a fill of length zero "is a legal no-op, not a ContractViolation", so an
empty region is in range at every offset. An accepted command is recorded and
its buffer retained. -/
def CopyCommandEncoder.FillBuffer (bufferLength : Nat) (buffer : DKGpuBuffer)
    (offset length value : Nat) (e : CopyCommandEncoder) : Outcome CopyCommandEncoder :=
  match e.encoder with
  | none => Outcome.assertionFailed
  | some enc =>
    if length = 0 ∨ offset + length ≤ bufferLength then
      Outcome.returned
        { e with encoder := some { enc with
            buffers := enc.buffers ++ [buffer],
            commands := enc.commands ++ [EncoderCommand.fillBuffer buffer offset length value] } }
    else
      Outcome.assertionFailed

/-- A queue of a family with the graphics and compute capabilities only. -/
def graphicsComputeQueue : CommandQueue :=
  ⟨⟨1, VK_QUEUE_GRAPHICS_BIT ||| VK_QUEUE_COMPUTE_BIT, true⟩, 2⟩

/-- An open copy encoder that has recorded a fill of the first four bytes of
buffer 1 with the value 255. -/
def sampleCopyEncoder : CopyCommandEncoder :=
  ⟨some ⟨[1], [], [], [], [EncoderCommand.fillBuffer 1 0 4 255], [], []⟩⟩

/-- A call of the `const` member function `IsCompleted`
(CopyCommandEncoder.h, line 51): the answer, and the encoder object after the
call, which a `const` member function leaves as it is. -/
def CopyCommandEncoder.callIsCompleted (e : CopyCommandEncoder) : Bool × CopyCommandEncoder :=
  (e.IsCompleted, e)

/-- The answers of `n` calls of `IsCompleted` in a row, in order, and the encoder
object after the last call. -/
def CopyCommandEncoder.callIsCompletedTimes :
    Nat → CopyCommandEncoder → List Bool × CopyCommandEncoder
  | 0, e => ([], e)
  | n + 1, e =>
    let first := e.callIsCompleted
    let rest := CopyCommandEncoder.callIsCompletedTimes n first.2
    (first.1 :: rest.1, rest.2)

end DKFramework.Private.Vulkan

/-! ## Theorems -/

namespace DKFramework.Private.Vulkan

/-- The registry after `Submit` is the registry before it followed by the entries
of the call. -/
theorem Submit_completionHandlers (q : CommandQueue) (checked : Bool) (a : SubmitArgs)
    (dev : GraphicsDevice) :
    (q.Submit checked a.newFence a.err a.submits a.submitCount a.callback dev).2.completionHandlers
      = dev.completionHandlers ++ a.entries checked := by
  obtain ⟨newFence, err, submits, submitCount, callback⟩ := a
  cases callback with
  | none =>
    by_cases herr : err = VK_SUCCESS
    · simp [CommandQueue.Submit, vkQueueSubmit, SubmitArgs.entries, herr]
    · cases checked <;>
        simp [CommandQueue.Submit, vkQueueSubmit, SubmitArgs.entries, herr, DKASSERT]
  | some cb =>
    by_cases hf : newFence = VK_NULL_HANDLE
    · by_cases herr : err = VK_SUCCESS
      · simp [CommandQueue.Submit, vkQueueSubmit, SubmitArgs.entries, herr, hf,
          GraphicsDevice.GetFence]
      · cases checked <;>
          simp [CommandQueue.Submit, vkQueueSubmit, SubmitArgs.entries, herr, hf, DKASSERT,
            GraphicsDevice.GetFence]
    · by_cases herr : err = VK_SUCCESS
      · simp [CommandQueue.Submit, vkQueueSubmit, SubmitArgs.entries, herr, hf,
          GraphicsDevice.GetFence, GraphicsDevice.AddFenceCompletionHandler]
      · cases checked <;>
          simp [CommandQueue.Submit, vkQueueSubmit, SubmitArgs.entries, herr, hf, DKASSERT,
            GraphicsDevice.GetFence, GraphicsDevice.AddFenceCompletionHandler]

/-- C1, counterexample: two calls with a non-null callback after which the
registry has no entry. In the first the device hands out fence 7 and the
native submission reports a lost device: the checked `DKASSERT` stops `Submit`
after the native call was made with fence 7 and before the registry is
touched. In the second the native submission succeeds, but the handle that
`GetFence` returns is null: `Submit` returns `true` and the test `if (fence)`
skips the registration. -/
theorem Submit_assertion_leaves_registry :
    sampleQueue.Submit true 7 VK_ERROR_DEVICE_LOST [11] 1 (some 5) idleDevice
        = (Outcome.assertionFailed, ⟨[7], [⟨1, 1, [11], 7⟩], []⟩)
      ∧ sampleQueue.Submit true VK_NULL_HANDLE VK_SUCCESS [11] 1 (some 5) idleDevice
        = (Outcome.returned true, ⟨[VK_NULL_HANDLE], [⟨1, 1, [11], VK_NULL_HANDLE⟩], []⟩) := by
  decide

/-- C1 (amended): for every `Submit` call. With a non-null callback: one fence is
obtained from the device and the native submission is made with that fence,
in every case; exactly the entry (that fence, that callback) is added to the
end of the registry if that fence is non-null and the call is not stopped at
`DKASSERT(err == VK_SUCCESS)` (the native submission succeeded, or the
assertion does not stop the call), and the registry is unchanged otherwise.
With a null callback: no fence is obtained, the native submission is made
with the null fence, and the registry is unchanged. -/
theorem Submit_attaches_fence_and_registers (q : CommandQueue) (checked : Bool)
    (newFence : VkFence) (err : VkResult) (submits : List VkSubmitInfo) (submitCount : Nat)
    (callback : Option DKOperation) (dev : GraphicsDevice) :
    (q.Submit checked newFence err submits submitCount callback dev).2 =
      match callback with
      | some cb =>
        { fencesIssued := dev.fencesIssued ++ [newFence],
          queueSubmits := dev.queueSubmits ++ [⟨q.queue, submitCount, submits, newFence⟩],
          completionHandlers :=
            if newFence ≠ VK_NULL_HANDLE ∧ (checked = false ∨ err = VK_SUCCESS) then
              dev.completionHandlers ++ [(newFence, some cb)]
            else
              dev.completionHandlers }
      | none =>
        { fencesIssued := dev.fencesIssued,
          queueSubmits := dev.queueSubmits ++ [⟨q.queue, submitCount, submits, VK_NULL_HANDLE⟩],
          completionHandlers := dev.completionHandlers } := by
  cases callback with
  | none =>
    by_cases herr : err = VK_SUCCESS
    · simp [CommandQueue.Submit, vkQueueSubmit, herr]
    · cases checked <;> simp [CommandQueue.Submit, vkQueueSubmit, herr, DKASSERT]
  | some cb =>
    by_cases hf : newFence = VK_NULL_HANDLE <;> by_cases herr : err = VK_SUCCESS <;>
      cases checked <;>
      simp [CommandQueue.Submit, vkQueueSubmit, herr, hf, DKASSERT, GraphicsDevice.GetFence,
        GraphicsDevice.AddFenceCompletionHandler]

/-- C1, witness: a successful submission with callback 5 and fence 7. -/
theorem Submit_attaches_fence_and_registers_witness :
    (sampleQueue.Submit true 7 VK_SUCCESS [11] 1 (some 5) idleDevice).2
      = ⟨[7], [⟨1, 1, [11], 7⟩], [(7, some 5)]⟩ :=
  Submit_attaches_fence_and_registers sampleQueue true 7 VK_SUCCESS [11] 1 (some 5) idleDevice

/-- C2, counterexample: where `DKASSERT` is checked, a native submission that
reports a lost device does not make `Submit` return `false`: the call stops
at the failed assertion. -/
theorem Submit_failure_stops_at_assertion :
    (sampleQueue.Submit true 7 VK_ERROR_DEVICE_LOST [11] 1 none idleDevice).1
        = Outcome.assertionFailed
      ∧ (sampleQueue.Submit true 7 VK_ERROR_DEVICE_LOST [11] 1 none idleDevice).1
        ≠ Outcome.returned false := by
  decide

/-- C2 (amended): `Submit` returns `true` exactly when the native result is success.
On any other native result it returns `false` where `DKASSERT` is not checked,
and where it is checked the call stops at `DKASSERT(err == VK_SUCCESS)` and
returns no value. -/
theorem Submit_result (q : CommandQueue) (checked : Bool) (newFence : VkFence)
    (err : VkResult) (submits : List VkSubmitInfo) (submitCount : Nat)
    (callback : Option DKOperation) (dev : GraphicsDevice) :
    ((q.Submit checked newFence err submits submitCount callback dev).1 = Outcome.returned true
        ↔ err = VK_SUCCESS)
      ∧ ((q.Submit checked newFence err submits submitCount callback dev).1 = Outcome.returned false
        ↔ err ≠ VK_SUCCESS ∧ checked = false)
      ∧ ((q.Submit checked newFence err submits submitCount callback dev).1 = Outcome.assertionFailed
        ↔ err ≠ VK_SUCCESS ∧ checked = true) := by
  by_cases herr : err = VK_SUCCESS
  · cases callback <;> simp [CommandQueue.Submit, vkQueueSubmit, herr]
  · cases checked <;> cases callback <;>
      simp [CommandQueue.Submit, vkQueueSubmit, herr, DKASSERT]

/-- C3, counterexample: when the native command-pool creation reports that host
memory is exhausted, `CreateCommandBuffer` returns the null object. -/
theorem CreateCommandBuffer_null_on_pool_failure :
    sampleQueue.CreateCommandBuffer VK_ERROR_OUT_OF_HOST_MEMORY 0 = none := by
  decide

/-- C3 (amended): `CreateCommandBuffer` returns a non-null command buffer exactly
when the native command-pool creation returns success, and the buffer then
holds the created pool and this queue; on any other native result it returns
null. -/
theorem CreateCommandBuffer_result (q : CommandQueue) (err : VkResult) (commandPool : VkHandle) :
    ((q.CreateCommandBuffer err commandPool).isSome = true ↔ err = VK_SUCCESS)
      ∧ (q.CreateCommandBuffer err commandPool = none ↔ err ≠ VK_SUCCESS)
      ∧ q.CreateCommandBuffer err commandPool
          = if err = VK_SUCCESS then some ⟨commandPool, q⟩ else none := by
  by_cases herr : err = VK_SUCCESS
  · simp [CommandQueue.CreateCommandBuffer, herr]
  · simp [CommandQueue.CreateCommandBuffer, herr]

/-- Masking an "or" with one of its operands gives that operand. -/
theorem or_and_self_right (a b : Nat) : (a ||| b) &&& b = b := by
  apply Nat.eq_of_testBit_eq
  intro i
  simp only [Nat.testBit_and, Nat.testBit_or]
  cases a.testBit i <;> cases b.testBit i <;> rfl

/-- Bits that miss the mask do not change a masked value. -/
theorem or_and_of_disjoint (f a b : Nat) (h : a &&& b = 0) : (f ||| a) &&& b = f &&& b := by
  apply Nat.eq_of_testBit_eq
  intro i
  have hi : (a &&& b).testBit i = false := by rw [h]; simp
  rw [Nat.testBit_and] at hi
  simp only [Nat.testBit_and, Nat.testBit_or]
  cases hfa : f.testBit i <;> cases ha : a.testBit i <;> cases hb : b.testBit i <;> simp_all

/-- Masking an "or" with its left operand gives that operand. -/
theorem or_and_self_left (a b : Nat) : (a ||| b) &&& a = a := by
  rw [Nat.lor_comm]
  exact or_and_self_right b a

/-- C4, counterexample: a queue family that has the transfer (copy) capability
and no other gets the empty mask from `Type()`, whatever the values of the
enumerators: its copy capability is not set in the result. -/
theorem QueueType_omits_copy :
    transferQueue.family.queueFlags &&& VK_QUEUE_TRANSFER_BIT ≠ 0
      ∧ ∀ tf : TypeFlags, transferQueue.QueueType tf = 0 := by
  refine ⟨by decide, fun tf => ?_⟩
  have h1 : transferQueue.family.queueFlags &&& VK_QUEUE_GRAPHICS_BIT = 0 := by decide
  have h2 : transferQueue.family.queueFlags &&& VK_QUEUE_COMPUTE_BIT = 0 := by decide
  simp [CommandQueue.QueueType, h1, h2]

/-- C4 (amended): `Type()` returns the queue's capability mask over Graphics and
Compute: each of these two capabilities that the family has is set in the
result, and the result has no bit outside `Graphics | Compute`, so the four
combinations of the two can be reported. The copy/transfer capability of the
family is not reported. -/
theorem QueueType_reports_graphics_and_compute (tf : TypeFlags) (q : CommandQueue) :
    (q.family.queueFlags &&& VK_QUEUE_GRAPHICS_BIT ≠ 0 →
        q.QueueType tf &&& tf.Graphics = tf.Graphics)
      ∧ (q.family.queueFlags &&& VK_QUEUE_COMPUTE_BIT ≠ 0 →
        q.QueueType tf &&& tf.Compute = tf.Compute)
      ∧ q.QueueType tf &&& (tf.Graphics ||| tf.Compute) = q.QueueType tf
      ∧ q.QueueType tf
          = ({ q with family := { q.family with
                queueFlags := q.family.queueFlags ||| VK_QUEUE_TRANSFER_BIT } }).QueueType tf
      ∧ q.QueueType tf < 2 ^ 32 := by
  have hg : ∀ f : Nat, (f ||| VK_QUEUE_TRANSFER_BIT) &&& VK_QUEUE_GRAPHICS_BIT
      = f &&& VK_QUEUE_GRAPHICS_BIT := fun f => or_and_of_disjoint f _ _ (by decide)
  have hc : ∀ f : Nat, (f ||| VK_QUEUE_TRANSFER_BIT) &&& VK_QUEUE_COMPUTE_BIT
      = f &&& VK_QUEUE_COMPUTE_BIT := fun f => or_and_of_disjoint f _ _ (by decide)
  have hG := tf.graphics_lt
  have hC := tf.compute_lt
  have hGC : tf.Graphics ||| tf.Compute < 2 ^ 32 := Nat.or_lt_two_pow hG hC
  have e1 : tf.Graphics &&& (tf.Graphics ||| tf.Compute) = tf.Graphics := by
    rw [Nat.land_comm]; exact or_and_self_left _ _
  have e2 : tf.Compute &&& (tf.Graphics ||| tf.Compute) = tf.Compute := by
    rw [Nat.land_comm]; exact or_and_self_right _ _
  simp only [CommandQueue.QueueType, hg, hc]
  by_cases h1 : q.family.queueFlags &&& VK_QUEUE_GRAPHICS_BIT = 0 <;>
    by_cases h2 : q.family.queueFlags &&& VK_QUEUE_COMPUTE_BIT = 0 <;>
    simp only [h1, h2, ne_eq, not_true_eq_false, not_false_eq_true, if_true, if_false,
      Nat.zero_or, Nat.zero_and, Nat.and_self, or_and_self_right, or_and_self_left, e1, e2, hG,
      hC, hGC, forall_const, and_self, IsEmpty.forall_iff, true_and, Nat.pos_pow_of_pos,
      Nat.two_pow_pos]

/-- C4, witness: a family with the graphics, compute and transfer bits is
reported with both Graphics and Compute set. -/
theorem QueueType_reports_graphics_and_compute_witness :
    universalQueue.QueueType sampleTypeFlags &&& sampleTypeFlags.Graphics
        = sampleTypeFlags.Graphics
      ∧ universalQueue.QueueType sampleTypeFlags &&& sampleTypeFlags.Compute
        = sampleTypeFlags.Compute :=
  ⟨(QueueType_reports_graphics_and_compute sampleTypeFlags universalQueue).1 (by decide),
   (QueueType_reports_graphics_and_compute sampleTypeFlags universalQueue).2.1 (by decide)⟩

/-- C5, counterexample: on a queue whose family is not flagged for presentation,
a `CreateSwapChain` call whose `Setup()` fails returns null without making any
presentation-support query. -/
theorem CreateSwapChain_setup_failure_skips_query :
    universalQueue.family.supportPresentation = false
      ∧ universalQueue.CreateSwapChain 9 false 0 VK_SUCCESS VK_TRUE = (none, []) := by
  decide

/-- C5 (amended): on a queue whose family is not flagged as supporting
presentation, every `CreateSwapChain` call whose swap chain `Setup()`
succeeded makes exactly one presentation-support query, for the queue's family
index and the swap chain's surface, and returns null if that query fails or
reports the surface unsupported (otherwise it returns the swap chain). A call
whose `Setup()` failed returns null and makes no query. -/
theorem CreateSwapChain_queries_support (q : CommandQueue) (window : Nat) (surface : VkHandle)
    (err : VkResult) (supportedOut : VkBool32) (h : q.family.supportPresentation = false) :
    (q.CreateSwapChain window true surface err supportedOut).2
        = [⟨q.family.familyIndex, surface⟩]
      ∧ ((q.CreateSwapChain window true surface err supportedOut).1 = none
          ↔ (err ≠ VK_SUCCESS ∨ supportedOut = VK_FALSE))
      ∧ ((q.CreateSwapChain window true surface err supportedOut).1 = some ⟨q, window, surface⟩
          ↔ (err = VK_SUCCESS ∧ supportedOut ≠ VK_FALSE))
      ∧ q.CreateSwapChain window false surface err supportedOut = (none, []) := by
  by_cases herr : err = VK_SUCCESS <;> by_cases hs : supportedOut = VK_FALSE <;>
    simp [CommandQueue.CreateSwapChain, h, herr, hs]

/-- C5, witness: a query that reports a lost surface makes `CreateSwapChain`
return null after one query. -/
theorem CreateSwapChain_queries_support_witness :
    (universalQueue.CreateSwapChain 9 true 4 VK_ERROR_SURFACE_LOST_KHR VK_FALSE).2
        = [⟨universalQueue.family.familyIndex, 4⟩]
      ∧ (universalQueue.CreateSwapChain 9 true 4 VK_ERROR_SURFACE_LOST_KHR VK_FALSE).1 = none :=
  ⟨(CreateSwapChain_queries_support universalQueue 9 4 VK_ERROR_SURFACE_LOST_KHR VK_FALSE
      (by decide)).1,
   (CreateSwapChain_queries_support universalQueue 9 4 VK_ERROR_SURFACE_LOST_KHR VK_FALSE
      (by decide)).2.1.mpr (Or.inl (by decide))⟩

/-- The entries of a concatenated history are the entries of its parts. -/
theorem submittedEntries_append (checked : Bool) (l1 l2 : List QueueEvent) :
    submittedEntries checked (l1 ++ l2)
      = submittedEntries checked l1 ++ submittedEntries checked l2 := by
  induction l1 with
  | nil => simp [submittedEntries]
  | cons e rest ih =>
    cases e with
    | submit a => simp [submittedEntries, ih]
    | reap signaled => simp [submittedEntries, ih]

/-- A `Submit` call with a callback and a non-null fence that is not stopped at
the assertion has exactly one entry. -/
theorem SubmitArgs.entries_of_registered (checked : Bool) (a : SubmitArgs) (c : DKOperation)
    (hc : a.callback = some c) (hf : a.newFence ≠ VK_NULL_HANDLE)
    (hr : checked = false ∨ a.err = VK_SUCCESS) :
    a.entries checked = [(a.newFence, some c)] := by
  simp [SubmitArgs.entries, hc, hf, hr]

/-- Along a history, the entries fired so far followed by the entries still in
the registry are the initial ones followed by the entries submitted, in
submission order. -/
theorem QueueHistory.run_fired_append (q : CommandQueue) (checked : Bool)
    (events : List QueueEvent) (h : QueueHistory) :
    (h.run q checked events).fired ++ (h.run q checked events).dev.completionHandlers
      = h.fired ++ h.dev.completionHandlers ++ submittedEntries checked events := by
  induction events generalizing h with
  | nil => simp [QueueHistory.run, submittedEntries]
  | cons e rest ih =>
    have hstep : (h.run q checked (e :: rest)) = (h.step q checked e).run q checked rest := by
      simp [QueueHistory.run]
    rw [hstep, ih]
    cases e with
    | submit a =>
      simp [QueueHistory.step, submittedEntries, Submit_completionHandlers]
    | reap signaled =>
      simp only [QueueHistory.step, submittedEntries, GraphicsDevice.ReapCompletions,
        List.append_assoc, List.takeWhile_append_dropWhile]

/-- A reaper pass that sees every fence signaled fires every waiting entry. -/
theorem QueueHistory.run_reap_all (q : CommandQueue) (checked : Bool) (h : QueueHistory)
    (events : List QueueEvent) :
    (h.run q checked (events ++ [QueueEvent.reap (fun _ => true)])).fired
      = (h.run q checked events).fired ++ (h.run q checked events).dev.completionHandlers := by
  simp [QueueHistory.run, List.foldl_append, QueueHistory.step, GraphicsDevice.ReapCompletions]

/-- C6, counterexample: two histories in which a `Submit` with callback 5 is
followed by a `Submit` with callback 6 and fence 8 and by a reaper pass that
sees every fence signaled. In the first the handle that `GetFence` returns
for the first submission is null, in the second the first submission reports
a lost device and stops at the checked `DKASSERT`; in both the first callback
is never registered, and callback 6 is invoked without callback 5 having
been invoked before it. -/
theorem Submit_unregistered_callback_never_fires :
    (QueueHistory.run sampleQueue true ⟨idleDevice, []⟩
        [QueueEvent.submit nullFenceSubmit, QueueEvent.submit secondSubmit,
          QueueEvent.reap (fun _ => true)]).fired = [(8, some 6)]
      ∧ (QueueHistory.run sampleQueue true ⟨idleDevice, []⟩
        [QueueEvent.submit lostDeviceSubmit, QueueEvent.submit secondSubmit,
          QueueEvent.reap (fun _ => true)]).fired = [(8, some 6)] := by
  decide

/-- C6 (amended): for every queue, every initial device state and every history in
which a `Submit` with callback `c1` is followed, after any events, by a
`Submit` with callback `c2`, where each of the two got a non-null fence and
was not stopped at the assertion, whatever fence status the reaper passes
see. Take the entries in the order of their invocation, followed by the
entries still waiting in the registry: the entry of the first submission
stands where the registry ended when it was submitted (`i`), the entry of the
second where the registry ended when that one was submitted (`j`), and
`i < j`, at every later time. So once the second callback has been invoked,
the first has been invoked before it; and after a reaper pass that sees every
fence signaled both have been invoked. -/
theorem Submit_callbacks_fire_in_submission_order (q : CommandQueue) (checked : Bool)
    (dev : GraphicsDevice) (pre mid post : List QueueEvent) (a1 a2 : SubmitArgs)
    (c1 c2 : DKOperation)
    (hc1 : a1.callback = some c1) (hf1 : a1.newFence ≠ VK_NULL_HANDLE)
    (hr1 : checked = false ∨ a1.err = VK_SUCCESS)
    (hc2 : a2.callback = some c2) (hf2 : a2.newFence ≠ VK_NULL_HANDLE)
    (hr2 : checked = false ∨ a2.err = VK_SUCCESS) :
    let before1 := QueueHistory.run q checked ⟨dev, []⟩ pre
    let before2 := QueueHistory.run q checked ⟨dev, []⟩ (pre ++ [QueueEvent.submit a1] ++ mid)
    let events := pre ++ [QueueEvent.submit a1] ++ mid ++ [QueueEvent.submit a2] ++ post
    let now := QueueHistory.run q checked ⟨dev, []⟩ events
    let i := before1.fired.length + before1.dev.completionHandlers.length
    let j := before2.fired.length + before2.dev.completionHandlers.length
    i < j
      ∧ (now.fired ++ now.dev.completionHandlers)[i]? = some (a1.newFence, some c1)
      ∧ (now.fired ++ now.dev.completionHandlers)[j]? = some (a2.newFence, some c2)
      ∧ (j < now.fired.length →
          now.fired[i]? = some (a1.newFence, some c1)
            ∧ now.fired[j]? = some (a2.newFence, some c2))
      ∧ j < (QueueHistory.run q checked ⟨dev, []⟩
          (events ++ [QueueEvent.reap (fun _ => true)])).fired.length := by
  intro before1 before2 events now i j
  have hinv : ∀ es : List QueueEvent,
      (QueueHistory.run q checked ⟨dev, []⟩ es).fired
          ++ (QueueHistory.run q checked ⟨dev, []⟩ es).dev.completionHandlers
        = dev.completionHandlers ++ submittedEntries checked es := by
    intro es
    simpa using QueueHistory.run_fired_append q checked es ⟨dev, []⟩
  have hlen : ∀ es : List QueueEvent,
      (QueueHistory.run q checked ⟨dev, []⟩ es).fired.length
          + (QueueHistory.run q checked ⟨dev, []⟩ es).dev.completionHandlers.length
        = dev.completionHandlers.length + (submittedEntries checked es).length := by
    intro es
    have := congrArg List.length (hinv es)
    simpa using this
  have e1 := SubmitArgs.entries_of_registered checked a1 c1 hc1 hf1 hr1
  have e2 := SubmitArgs.entries_of_registered checked a2 c2 hc2 hf2 hr2
  have hi : i = dev.completionHandlers.length + (submittedEntries checked pre).length :=
    hlen pre
  have hj : j = dev.completionHandlers.length + (submittedEntries checked pre).length + 1
      + (submittedEntries checked mid).length := by
    have := hlen (pre ++ [QueueEvent.submit a1] ++ mid)
    simp only [submittedEntries_append, submittedEntries, e1, List.length_append,
      List.length_cons, List.length_nil, List.append_nil] at this
    show (QueueHistory.run q checked ⟨dev, []⟩ (pre ++ [QueueEvent.submit a1] ++ mid)).fired.length
      + (QueueHistory.run q checked ⟨dev, []⟩
          (pre ++ [QueueEvent.submit a1] ++ mid)).dev.completionHandlers.length = _
    omega
  have horder : now.fired ++ now.dev.completionHandlers
      = dev.completionHandlers ++ submittedEntries checked pre
        ++ (a1.newFence, some c1) :: (submittedEntries checked mid
        ++ (a2.newFence, some c2) :: submittedEntries checked post) := by
    rw [hinv events]
    simp [events, submittedEntries_append, submittedEntries, e1, e2]
  have hij : i < j := by omega
  have hpi : (now.fired ++ now.dev.completionHandlers)[i]? = some (a1.newFence, some c1) := by
    rw [horder, List.getElem?_append_right (by simp [hi])]
    simp [hi]
  have hpj : (now.fired ++ now.dev.completionHandlers)[j]? = some (a2.newFence, some c2) := by
    rw [horder, List.getElem?_append_right (by simp [hj]; omega)]
    have : j - (dev.completionHandlers ++ submittedEntries checked pre).length
        = (submittedEntries checked mid).length + 1 := by
      simp [hj]; omega
    rw [this, List.getElem?_cons_succ, List.getElem?_append_right (le_refl _)]
    simp
  refine ⟨hij, hpi, hpj, fun hlt => ?_, ?_⟩
  · constructor
    · rw [← hpi, List.getElem?_append_left (by omega)]
    · rw [← hpj, List.getElem?_append_left hlt]
  · rw [QueueHistory.run_reap_all]
    have hsome : j < (now.fired ++ now.dev.completionHandlers).length := by
      by_contra hge
      rw [List.getElem?_eq_none (by omega)] at hpj
      cases hpj
    exact hsome

/-- C6, witness: the fence of the second submission is signaled first, and the
callback of the first submission is still invoked first. -/
theorem Submit_callbacks_fire_in_submission_order_witness :
    (QueueHistory.run sampleQueue true ⟨idleDevice, []⟩
        ([] ++ [QueueEvent.submit firstSubmit] ++ [] ++ [QueueEvent.submit secondSubmit]
          ++ laterFenceSignaledFirst)).fired[0]? = some (7, some 5)
      ∧ (QueueHistory.run sampleQueue true ⟨idleDevice, []⟩
        ([] ++ [QueueEvent.submit firstSubmit] ++ [] ++ [QueueEvent.submit secondSubmit]
          ++ laterFenceSignaledFirst)).fired[1]? = some (8, some 6) :=
  (Submit_callbacks_fire_in_submission_order sampleQueue true idleDevice [] []
    laterFenceSignaledFirst firstSubmit secondSubmit 5 6 rfl (by decide) (Or.inr rfl)
    rfl (by decide) (Or.inr rfl)).2.2.2.1 (by decide)

end DKFramework.Private.Vulkan

namespace DKFramework.Private.Metal

/-- No operation takes a committed buffer out of the committed states, and none
hands it to the queue again. -/
theorem CommandBuffer.step_committed (cb : CommandBuffer) (op : BufferOp)
    (h : cb.isCommitted) : (cb.step op).isCommitted ∧ (cb.step op).commits = cb.commits := by
  obtain ⟨state, encoders, commits⟩ := cb
  cases op with
  | endEncoding i =>
    rcases h with h | h <;> simp only at h <;> subst h <;>
      simp only [CommandBuffer.step, CommandBuffer.EndEncoding] <;>
      split <;> simp [CommandBuffer.isCommitted]
  | _ =>
    rcases h with h | h <;> simp only at h <;> subst h <;>
      simp [CommandBuffer.step, CommandBuffer.isCommitted,
        CommandBuffer.CreateRenderCommandEncoder, CommandBuffer.CreateComputeCommandEncoder,
        CommandBuffer.CreateBlitCommandEncoder, CommandBuffer.CreateEncoder,
        CommandBuffer.Commit, CommandBuffer.Complete, CommandBuffer.WaitUntilCompleted]

/-- A committed buffer stays committed, with the same number of submissions,
through any sequence of operations. -/
theorem CommandBuffer.run_committed (ops : List BufferOp) (cb : CommandBuffer)
    (h : cb.isCommitted) : (cb.run ops).isCommitted ∧ (cb.run ops).commits = cb.commits := by
  induction ops generalizing cb with
  | nil => exact ⟨h, rfl⟩
  | cons op rest ih =>
    have hs := CommandBuffer.step_committed cb op h
    have hr := ih (cb.step op) hs.1
    exact ⟨hr.1, hr.2.trans hs.2⟩

/-- A `Commit()` that returns `true` leaves the buffer submitted. -/
theorem CommandBuffer.Commit_true_committed (cb cb1 : CommandBuffer) (accepted : Bool)
    (h : cb.Commit accepted = (true, cb1)) : cb1.isCommitted := by
  obtain ⟨state, encoders, commits⟩ := cb
  cases state <;> cases accepted <;>
    simp [CommandBuffer.Commit] at h <;> subst h <;> simp [CommandBuffer.isCommitted]

/-- C7: after a `Commit()` that returned `true`, and after any further operations
on the buffer, every `Commit()` returns `false` and leaves the buffer as it is,
and the number of submissions to the queue stays what it was right after the
first commit, further `Commit()` calls among the operations included. -/
theorem Commit_is_single_use (cb cb1 : CommandBuffer) (accepted1 : Bool)
    (h : cb.Commit accepted1 = (true, cb1)) (ops : List BufferOp) (accepted : Bool) :
    (cb1.run ops).Commit accepted = (false, cb1.run ops)
      ∧ ((cb1.run ops).Commit accepted).2.commits = cb1.commits
      ∧ (cb1.run (ops ++ [BufferOp.commit accepted])).commits = cb1.commits := by
  have hc := CommandBuffer.Commit_true_committed cb cb1 accepted1 h
  have hr := CommandBuffer.run_committed ops cb1 hc
  have hcommit : (cb1.run ops).Commit accepted = (false, cb1.run ops) := by
    rcases hr.1 with hs | hs <;> simp [CommandBuffer.Commit, hs]
  refine ⟨hcommit, ?_, (CommandBuffer.run_committed _ cb1 hc).2⟩
  rw [hcommit]
  exact hr.2

/-- C7, witness: a fresh buffer is committed; after an attempt to open an
encoder, the completion of the work and a second commit, a third commit is
rejected and the buffer has been handed to the queue once. -/
theorem Commit_is_single_use_witness :
    ((CommandBuffer.fresh.Commit true).2.run
        [BufferOp.createCompute, BufferOp.complete, BufferOp.commit true]).Commit true
      = (false, ⟨RecordingState.Completed, [], 1⟩) :=
  (Commit_is_single_use CommandBuffer.fresh (CommandBuffer.fresh.Commit true).2 true rfl
    [BufferOp.createCompute, BufferOp.complete, BufferOp.commit true] true).1

/-- Ending the open encoder at index `i` lowers the number of open encoders of
a list by one. -/
theorem openCount_set_ended (l : List Encoder) (i : Nat) (kind : EncoderKind)
    (h : l[i]? = some ⟨kind, EncoderState.Open⟩) :
    ((l.set i ⟨kind, EncoderState.Ended⟩).filter (fun e => e.state = EncoderState.Open)).length + 1
      = (l.filter (fun e => e.state = EncoderState.Open)).length := by
  induction l generalizing i with
  | nil => simp at h
  | cons e rest ih =>
    cases i with
    | zero =>
      simp only [List.getElem?_cons_zero, Option.some.injEq] at h
      subst h
      simp
    | succ n =>
      simp only [List.getElem?_cons_succ] at h
      have hn := ih n h
      by_cases he : e.state = EncoderState.Open
      · simp [List.filter_cons, he]
        omega
      · simp [List.filter_cons, he]
        omega

/-- Creating an encoder keeps the buffer consistent. -/
theorem CommandBuffer.CreateEncoder_consistent (cb : CommandBuffer) (kind : EncoderKind)
    (h : cb.consistent) : (cb.CreateEncoder kind).2.consistent := by
  obtain ⟨state, encoders, commits⟩ := cb
  cases state <;>
    simp_all [CommandBuffer.consistent, CommandBuffer.CreateEncoder, CommandBuffer.openEncoders]

/-- Every operation keeps the buffer consistent. -/
theorem CommandBuffer.step_consistent (cb : CommandBuffer) (op : BufferOp)
    (h : cb.consistent) : (cb.step op).consistent := by
  cases op with
  | createRender d => exact CommandBuffer.CreateEncoder_consistent cb _ h
  | createCompute => exact CommandBuffer.CreateEncoder_consistent cb _ h
  | createBlit => exact CommandBuffer.CreateEncoder_consistent cb _ h
  | endEncoding i =>
    obtain ⟨state, encoders, commits⟩ := cb
    simp only [CommandBuffer.step, CommandBuffer.EndEncoding]
    split
    · rename_i kind hget
      have hcount := openCount_set_ended encoders i kind hget
      simp only [CommandBuffer.consistent, CommandBuffer.openEncoders] at h ⊢
      rcases h with ⟨hs, hn⟩ | ⟨hs, hn⟩
      · right
        subst hs
        refine ⟨by simp, ?_⟩
        omega
      · omega
    · exact h
  | commit accepted =>
    obtain ⟨state, encoders, commits⟩ := cb
    cases state <;> cases accepted <;>
      simp_all [CommandBuffer.step, CommandBuffer.consistent, CommandBuffer.Commit,
        CommandBuffer.openEncoders]
  | complete =>
    obtain ⟨state, encoders, commits⟩ := cb
    cases state <;>
      simp_all [CommandBuffer.step, CommandBuffer.consistent, CommandBuffer.Complete,
        CommandBuffer.openEncoders]
  | waitUntilCompleted =>
    obtain ⟨state, encoders, commits⟩ := cb
    cases state <;>
      simp_all [CommandBuffer.step, CommandBuffer.consistent, CommandBuffer.WaitUntilCompleted,
        CommandBuffer.Complete, CommandBuffer.openEncoders]

/-- Every buffer reached from a consistent one is consistent. -/
theorem CommandBuffer.run_consistent (ops : List BufferOp) (cb : CommandBuffer)
    (h : cb.consistent) : (cb.run ops).consistent := by
  induction ops generalizing cb with
  | nil => exact h
  | cons op rest ih => exact ih (cb.step op) (CommandBuffer.step_consistent cb op h)

/-- C8: for every command buffer reached from a fresh one by any sequence of
operations: at most one encoder is open on it, and if an encoder is open then
each of `CreateRenderCommandEncoder`, `CreateComputeCommandEncoder` and
`CreateBlitCommandEncoder` (the copy encoder) returns null and leaves the
buffer, with its open encoder and its recording state, as it was. -/
theorem Create_encoder_rejected_while_open (ops : List BufferOp) (descriptor : Nat) :
    (CommandBuffer.fresh.run ops).openEncoders ≤ 1
      ∧ (0 < (CommandBuffer.fresh.run ops).openEncoders →
          (CommandBuffer.fresh.run ops).CreateRenderCommandEncoder descriptor
              = (none, CommandBuffer.fresh.run ops)
            ∧ (CommandBuffer.fresh.run ops).CreateComputeCommandEncoder
              = (none, CommandBuffer.fresh.run ops)
            ∧ (CommandBuffer.fresh.run ops).CreateBlitCommandEncoder
              = (none, CommandBuffer.fresh.run ops)) := by
  have hfresh : CommandBuffer.fresh.consistent := by
    right
    exact ⟨by decide, by decide⟩
  have h := CommandBuffer.run_consistent ops CommandBuffer.fresh hfresh
  rcases h with ⟨hs, hn⟩ | ⟨hs, hn⟩
  · refine ⟨by omega, fun _ => ?_⟩
    simp [CommandBuffer.CreateRenderCommandEncoder, CommandBuffer.CreateComputeCommandEncoder,
      CommandBuffer.CreateBlitCommandEncoder, CommandBuffer.CreateEncoder, hs]
  · exact ⟨by omega, fun hpos => by omega⟩

/-- C8, witness: with a render encoder open on a fresh buffer, a request for a
compute encoder returns null and the render encoder stays the only one,
still open. -/
theorem Create_encoder_rejected_while_open_witness :
    (CommandBuffer.fresh.run [BufferOp.createRender 3]).CreateComputeCommandEncoder
      = (none, ⟨RecordingState.HasOpenEncoder, [⟨EncoderKind.Render, EncoderState.Open⟩], 0⟩) :=
  ((Create_encoder_rejected_while_open [BufferOp.createRender 3] 3).2 (by decide)).2.1

end DKFramework.Private.Metal

namespace DKFramework

/-- A setter that binds slot `binding` leaves every other slot as it was,
whether it succeeds or is a contract violation. -/
theorem DKShaderBindingSet.bind_other_slot (set : DKShaderBindingSet) (kind : ResourceKind)
    (binding K : Nat) (resources : List BoundResource) (h : binding ≠ K) :
    (match set.bind kind binding resources with
      | Outcome.returned set1 => set1
      | Outcome.assertionFailed => set).table K = set.table K := by
  unfold DKShaderBindingSet.bind
  split_ifs with hk
  · simp [Function.update, Ne.symm h]
  · rfl

/-- A setter call on another slot leaves the binding of slot `K` as it was. -/
theorem DKShaderBindingSet.step_other_slot (set : DKShaderBindingSet) (c : BindingCall)
    (K : Nat) (h : c.slot ≠ K) : (set.step c).table K = set.table K := by
  cases c <;>
    exact DKShaderBindingSet.bind_other_slot set _ _ K _ h

/-- Setter calls on other slots leave the binding of slot `K` as it was. -/
theorem DKShaderBindingSet.run_other_slots (calls : List BindingCall) (set : DKShaderBindingSet)
    (K : Nat) (h : ∀ c ∈ calls, c.slot ≠ K) : (set.run calls).table K = set.table K := by
  induction calls generalizing set with
  | nil => rfl
  | cons c rest ih =>
    have hrest : ∀ c ∈ rest, c.slot ≠ K := fun c hc => h c (List.mem_cons_of_mem _ hc)
    have hc : c.slot ≠ K := h c (List.mem_cons_self _ _)
    have hrun : set.run (c :: rest) = (set.step c).run rest := rfl
    rw [hrun, ih (set.step c) hrest, DKShaderBindingSet.step_other_slot set c K hc]

/-- C10: for every binding set, slot `K` that the layout declares for buffers
and buffer `b`: `SetBuffer(K, b, offset, length)` succeeds, and after it and
after any setter calls on other slots (no rebinding of `K`), the active binding
at slot `K` is the buffer reference `b`, with the offset and length given. -/
theorem SetBuffer_then_query (set : DKShaderBindingSet) (K : Nat) (b : DKGpuBuffer)
    (offset length : Nat) (calls : List BindingCall)
    (hkind : set.layout.kindOf K = some ResourceKind.Buffer)
    (hcalls : ∀ c ∈ calls, c.slot ≠ K) :
    ∃ set1, set.SetBuffer K b offset length = Outcome.returned set1
      ∧ (set1.run calls).activeBuffer K = some b
      ∧ (set1.run calls).activeBinding K = [BoundResource.buffer ⟨b, offset, length⟩] := by
  refine ⟨⟨set.layout, Function.update set.table K [BoundResource.buffer ⟨b, offset, length⟩]⟩,
    ?_, ?_, ?_⟩
  · simp [DKShaderBindingSet.SetBuffer, DKShaderBindingSet.bind, hkind]
  · simp [DKShaderBindingSet.activeBuffer, DKShaderBindingSet.activeBinding,
      DKShaderBindingSet.run_other_slots calls _ K hcalls]
  · simp [DKShaderBindingSet.activeBinding,
      DKShaderBindingSet.run_other_slots calls _ K hcalls]

/-- C10, witness: buffer 42 is bound to slot 0, then a texture and a sampler are
bound to slots 1 and 2; the buffer active at slot 0 is 42. -/
theorem SetBuffer_then_query_witness :
    ∃ set1, (DKShaderBindingSet.create sampleLayout).SetBuffer 0 42 16 64 = Outcome.returned set1
      ∧ (set1.run [BindingCall.setTexture 1 7, BindingCall.setSamplerState 2 9]).activeBuffer 0
        = some 42
      ∧ (set1.run [BindingCall.setTexture 1 7, BindingCall.setSamplerState 2 9]).activeBinding 0
        = [BoundResource.buffer ⟨42, 16, 64⟩] :=
  SetBuffer_then_query (DKShaderBindingSet.create sampleLayout) 0 42 16 64
    [BindingCall.setTexture 1 7, BindingCall.setSamplerState 2 9] (by decide) (by decide)

end DKFramework

namespace DKFramework.Private.Vulkan

/-- Setting no byte leaves the bytes of a buffer as they are. -/
theorem fillBytes_zero (offset value : Nat) (i : Nat) (bytes : List Nat) :
    fillBytes offset 0 value i bytes = bytes := by
  induction bytes generalizing i with
  | nil => rfl
  | cons x rest ih =>
    have hno : ¬ (offset ≤ i ∧ i < offset + 0) := by omega
    simp [fillBytes, hno, ih]

/-- C11: for every open copy encoder, buffer, buffer length, offset and value,
`FillBuffer(buffer, offset, 0, value)` is accepted (it is no contract
violation and the encoder stays open), and whatever the contents of the GPU
buffers are, executing the encoder's commands with the zero-length fill leaves
every buffer with the same contents as executing them without it. -/
theorem FillBuffer_zero_length_is_noop (e : CopyCommandEncoder)
    (enc : CopyCommandEncoder.Encoder) (bufferLength : Nat) (buffer : DKGpuBuffer)
    (offset value : Nat) (hopen : e.encoder = some enc) :
    ∃ enc1, e.FillBuffer bufferLength buffer offset 0 value = Outcome.returned ⟨some enc1⟩
      ∧ (CopyCommandEncoder.mk (some enc1)).IsCompleted = false
      ∧ ∀ mem : GpuMemory, enc1.execute mem = enc.execute mem := by
  refine ⟨{ enc with buffers := enc.buffers ++ [buffer],
                     commands := enc.commands
                       ++ [EncoderCommand.fillBuffer buffer offset 0 value] }, ?_, ?_, ?_⟩
  · simp [CopyCommandEncoder.FillBuffer, hopen]
  · simp [CopyCommandEncoder.IsCompleted]
  · intro mem
    have hfill : ∀ m : GpuMemory,
        EncoderCommand.execute m (EncoderCommand.fillBuffer buffer offset 0 value) = m := by
      intro m
      funext b
      simp [EncoderCommand.execute, fillBytes_zero]
    simp [CopyCommandEncoder.Encoder.execute, List.foldl_append, hfill]

/-- C11, witness: a zero-length fill at offset 100 of buffer 1, which has 16
bytes, on an open encoder. -/
theorem FillBuffer_zero_length_is_noop_witness :
    ∃ enc1, sampleCopyEncoder.FillBuffer 16 1 100 0 7 = Outcome.returned ⟨some enc1⟩
      ∧ (CopyCommandEncoder.mk (some enc1)).IsCompleted = false
      ∧ ∀ mem : GpuMemory,
          enc1.execute mem
            = (⟨[1], [], [], [], [EncoderCommand.fillBuffer 1 0 4 255], [], []⟩ :
                CopyCommandEncoder.Encoder).execute mem :=
  FillBuffer_zero_length_is_noop sampleCopyEncoder _ 16 1 100 7 rfl

/-- C19: `CreateSwapChain(window)` returns a non-null swap chain (the one made
for this queue, window and surface) if and only if `Setup()` succeeds and
either the queue family is flagged as supporting presentation or the
per-surface support query returns success and reports the surface supported;
the per-surface query is made if and only if `Setup()` succeeded and the
family is not flagged, and then once, for the family index and the surface. -/
theorem CreateSwapChain_result_iff (q : CommandQueue) (window : Nat) (setupOk : Bool)
    (surface : VkHandle) (err : VkResult) (supportedOut : VkBool32) :
    ((q.CreateSwapChain window setupOk surface err supportedOut).1 ≠ none
        ↔ setupOk = true ∧ (q.family.supportPresentation = true
            ∨ (err = VK_SUCCESS ∧ supportedOut ≠ VK_FALSE)))
      ∧ ((q.CreateSwapChain window setupOk surface err supportedOut).1 = none
          ∨ (q.CreateSwapChain window setupOk surface err supportedOut).1
              = some ⟨q, window, surface⟩)
      ∧ ((q.CreateSwapChain window setupOk surface err supportedOut).2 ≠ []
        ↔ setupOk = true ∧ q.family.supportPresentation = false)
      ∧ ((q.CreateSwapChain window setupOk surface err supportedOut).2 = []
          ∨ (q.CreateSwapChain window setupOk surface err supportedOut).2
              = [⟨q.family.familyIndex, surface⟩]) := by
  cases setupOk <;> cases hp : q.family.supportPresentation <;>
    by_cases herr : err = VK_SUCCESS <;> by_cases hs : supportedOut = VK_FALSE <;>
    simp [CommandQueue.CreateSwapChain, hp, herr, hs]

/-- C20: for every queue-family flag word, `Type()` returns exactly Graphics if
the graphics bit is set, or-ed with Compute if the compute bit is set: the
result is one of 0, Graphics, Compute and Graphics|Compute, and two queues
whose families agree on the graphics bit and on the compute bit get the same
`Type()`, whatever their other bits are. -/
theorem QueueType_exact (tf : TypeFlags) (q : CommandQueue) :
    q.QueueType tf
        = (if q.family.queueFlags &&& VK_QUEUE_GRAPHICS_BIT ≠ 0 then tf.Graphics else 0)
          ||| (if q.family.queueFlags &&& VK_QUEUE_COMPUTE_BIT ≠ 0 then tf.Compute else 0)
      ∧ (q.QueueType tf = 0 ∨ q.QueueType tf = tf.Graphics ∨ q.QueueType tf = tf.Compute
          ∨ q.QueueType tf = tf.Graphics ||| tf.Compute)
      ∧ ∀ q2 : CommandQueue,
          q2.family.queueFlags &&& VK_QUEUE_GRAPHICS_BIT
              = q.family.queueFlags &&& VK_QUEUE_GRAPHICS_BIT →
          q2.family.queueFlags &&& VK_QUEUE_COMPUTE_BIT
              = q.family.queueFlags &&& VK_QUEUE_COMPUTE_BIT →
          q2.QueueType tf = q.QueueType tf := by
  refine ⟨?_, ?_, ?_⟩
  · by_cases h1 : q.family.queueFlags &&& VK_QUEUE_GRAPHICS_BIT = 0 <;>
      by_cases h2 : q.family.queueFlags &&& VK_QUEUE_COMPUTE_BIT = 0 <;>
      simp [CommandQueue.QueueType, h1, h2]
  · by_cases h1 : q.family.queueFlags &&& VK_QUEUE_GRAPHICS_BIT = 0 <;>
      by_cases h2 : q.family.queueFlags &&& VK_QUEUE_COMPUTE_BIT = 0 <;>
      simp [CommandQueue.QueueType, h1, h2]
  · intro q2 hg hc
    simp only [CommandQueue.QueueType, hg, hc]

/-- C20, witness: a family with the graphics and compute bits and a family with
the transfer bit as well get the same `Type()`. -/
theorem QueueType_exact_witness :
    graphicsComputeQueue.QueueType sampleTypeFlags = universalQueue.QueueType sampleTypeFlags :=
  (QueueType_exact sampleTypeFlags universalQueue).2.2 graphicsComputeQueue
    (by decide) (by decide)

end DKFramework.Private.Vulkan

namespace DKFoundation

variable {α σ : Type}

/-- A slot inside the block of an array shows that `data` is not null. -/
theorem DKArray.data_of_blockSize_pos (a : DKArray α) (h : 0 < a.blockSize) :
    ∃ b, a.data = some b ∧ b.size = a.blockSize := by
  cases hd : a.data with
  | none => simp [DKArray.blockSize, hd] at h
  | some b => exact ⟨b, rfl, by simp [DKArray.blockSize, hd]⟩

/-- A placement `new` into a slot of the block sets that slot and no other. -/
theorem DKArray.withData_construct (a : DKArray α) (i : Nat) (v : α) (h : i < a.blockSize) :
    ∃ a1, a.withData (Block.construct i v) = Except.ok a1 ∧ a1.count = a.count
      ∧ a1.capacity = a.capacity ∧ a1.blockSize = a.blockSize
      ∧ ∀ j, a1.slot j = if j = i then some v else a.slot j := by
  obtain ⟨b, hd, hs⟩ := a.data_of_blockSize_pos (by omega)
  refine ⟨{ a with data := some ⟨b.size, fun j => if j = i then some v else b.slot j⟩ },
    ?_, rfl, rfl, ?_, ?_⟩
  · simp [DKArray.withData, hd, Block.construct, hs, h]
  · simp [DKArray.blockSize, hd]
  · intro j
    simp only [DKArray.slot, hd]
    by_cases hj : j = i
    · subst hj; simp [hs, h]
    · simp [hj]

/-- A destructor call on an object of the block leaves that slot raw and changes
no other. -/
theorem DKArray.withData_destroy (a : DKArray α) (i : Nat) (h : (a.slot i).isSome = true) :
    ∃ a1, a.withData (Block.destroy i) = Except.ok a1 ∧ a1.count = a.count
      ∧ a1.capacity = a.capacity ∧ a1.blockSize = a.blockSize
      ∧ ∀ j, a1.slot j = if j = i then none else a.slot j := by
  cases hd : a.data with
  | none => simp [DKArray.slot, hd] at h
  | some b =>
    have hi : i < b.size := by
      by_contra hn
      simp [DKArray.slot, hd, hn] at h
    have hsome : (b.slot i).isSome = true := by
      simpa [DKArray.slot, hd, hi] using h
    refine ⟨{ a with data := some ⟨b.size, fun j => if j = i then none else b.slot j⟩ },
      ?_, rfl, rfl, ?_, ?_⟩
    · simp [DKArray.withData, hd, Block.destroy, hi, hsome]
    · simp [DKArray.blockSize, hd]
    · intro j
      simp only [DKArray.slot, hd]
      by_cases hj : j = i
      · subst hj; simp
      · simp [hj]

/-- A `memmove` inside the block copies the source slots to the destination
slots and changes no other. -/
theorem DKArray.withData_memmove (a : DKArray α) (dst src n : Nat) (hpos : 0 < a.blockSize)
    (hdst : dst + n ≤ a.blockSize) (hsrc : src + n ≤ a.blockSize) :
    ∃ a1, a.withData (Block.memmove dst src n) = Except.ok a1 ∧ a1.count = a.count
      ∧ a1.capacity = a.capacity ∧ a1.blockSize = a.blockSize
      ∧ ∀ j, a1.slot j = if dst ≤ j ∧ j < dst + n then a.slot (src + (j - dst)) else a.slot j := by
  obtain ⟨b, hd, hs⟩ := a.data_of_blockSize_pos hpos
  refine ⟨{ a with data := some ⟨b.size,
      fun j => if dst ≤ j ∧ j < dst + n then b.slot (src + (j - dst)) else b.slot j⟩ },
    ?_, rfl, rfl, ?_, ?_⟩
  · have hcond : n = 0 ∨ (dst + n ≤ b.size ∧ src + n ≤ b.size) := Or.inr ⟨by omega, by omega⟩
    simp [DKArray.withData, hd, Block.memmove, hcond]
  · simp [DKArray.blockSize, hd]
  · intro j
    simp only [DKArray.slot, hd]
    by_cases hj : dst ≤ j ∧ j < dst + n
    · have h1 : j < b.size := by omega
      have h2 : src + (j - dst) < b.size := by omega
      simp [hj, h1, h2]
    · simp [hj]

/-- With memory from the allocator, `ReserveItemCapsNL(c)` returns an array with
the same contents and room for `c` more objects. -/
theorem DKArray.ReserveItemCapsNL_holds (debug : Bool) (c : Nat) (a : DKArray α) (xs : List α)
    (h : a.Holds xs) :
    ∃ a1, a.ReserveItemCapsNL debug true c = Except.ok a1 ∧ a1.Holds xs
      ∧ a1.count = a.count ∧ a1.count + c ≤ a1.capacity := by
  obtain ⟨hcount, hcap, hsize, hslot⟩ := h
  by_cases hc : c > 0
  · by_cases hneed : a.capacity < c + a.count ∨ a.count = a.capacity
    · have hgrow : ∀ m : Nat, c ≤ m → 4 ≤ m →
          ∃ a1, a.ReserveNL debug true (a.count + m) = Except.ok a1 ∧ a1.Holds xs
            ∧ a1.count = a.count ∧ a1.count + c ≤ a1.capacity := by
        intro m hm h4
        have hnot : ¬ (a.count + m ≤ a.capacity) := by omega
        cases hd : a.data with
        | none =>
          refine ⟨{ a with data := some (Block.alloc (a.count + m)), capacity := a.count + m },
            ?_, ⟨hcount, ?_, ?_, ?_⟩, rfl, ?_⟩
          · simp [DKArray.ReserveNL, hnot, hd, DKASSERT_DEBUG, DKFramework.DKASSERT]
          · simp
          · simp [DKArray.blockSize, Block.alloc]
          · intro i hi
            have h0 : a.capacity = 0 := by simpa [DKArray.blockSize, hd] using hsize.symm
            simp at hi
            omega
          · simp; omega
        | some b =>
          refine ⟨{ a with data := some (b.realloc (a.count + m)), capacity := a.count + m },
            ?_, ⟨hcount, ?_, ?_, ?_⟩, rfl, ?_⟩
          · simp [DKArray.ReserveNL, hnot, hd, DKASSERT_DEBUG, DKFramework.DKASSERT]
          · simp
          · simp [DKArray.blockSize, Block.realloc]
          · intro i hi
            have hb : b.size = a.capacity := by simpa [DKArray.blockSize, hd] using hsize
            have hold := hslot i hi
            simp only [DKArray.slot, hd] at hold
            simp only at hi
            have h1 : i < b.size := by omega
            have h2 : i < a.count + m := by omega
            simp only [DKArray.slot, Block.realloc, h1, h2, if_true]
            simpa [h1] using hold
          · simp; omega
      simp only [DKArray.ReserveItemCapsNL, hc, hneed, if_true, DKArray.InitialSize]
      by_cases h1 : c > 4 <;> by_cases h2 : a.count / 2 > c <;> by_cases h3 : a.count / 2 > 4 <;>
        simp only [h1, h2, h3, if_true, if_false] <;> apply hgrow <;> omega
    · refine ⟨a, ?_, ⟨hcount, hcap, hsize, hslot⟩, rfl, by omega⟩
      simp [DKArray.ReserveItemCapsNL, hc, hneed]
  · refine ⟨a, ?_, ⟨hcount, hcap, hsize, hslot⟩, rfl, by omega⟩
    simp [DKArray.ReserveItemCapsNL, hc]

/-- The element at an index of a list into which a list was inserted. -/
theorem getElem?_take_append_drop (xs vs : List α) (p i : Nat) (hp : p ≤ xs.length) :
    (xs.take p ++ vs ++ xs.drop p)[i]?
      = if i < p then xs[i]? else if i < p + vs.length then vs[i - p]?
        else xs[i - vs.length]? := by
  have hlen : (xs.take p).length = p := by simp [hp]
  by_cases h1 : i < p
  · rw [List.append_assoc, List.getElem?_append_left (by omega)]
    simp [h1, List.getElem?_take]
  · by_cases h2 : i < p + vs.length
    · rw [List.getElem?_append_left (by simp [hlen]; omega),
        List.getElem?_append_right (by omega)]
      simp [h1, h2, hlen]
    · rw [List.getElem?_append_right (by simp [hlen]; omega)]
      simp only [h1, h2, if_false, List.getElem?_drop, List.length_append, hlen]
      congr 1
      omega

/-- C12: for every array that holds `xs` and every value `v`, with memory from
the allocator `Add(v)` returns the previous `Count()`; afterwards `Count()` is
the previous count plus one, the element at the returned index is `v`, every
element below the previous count is unchanged, and the array holds `xs`
followed by `v`. -/
theorem Add_appends_to_tail (debug : Bool) (a : DKArray α) (xs : List α) (v : α)
    (h : a.Holds xs) :
    ∃ a1, a.Add debug true v = Except.ok (a.Count, a1)
      ∧ a1.Count = a.Count + 1
      ∧ a1.slot a.Count = some v
      ∧ (∀ i, i < a.Count → a1.slot i = a.slot i)
      ∧ a1.Holds (xs ++ [v]) := by
  obtain ⟨a1, hres, hholds, hcount, hroom⟩ := a.ReserveItemCapsNL_holds debug 1 xs h
  obtain ⟨hlen, hcap, hsize, hslot⟩ := hholds
  obtain ⟨a2, hcons, hcount2, hcap2, hsize2, hslot2⟩ :=
    a1.withData_construct a1.count v (by omega)
  refine ⟨{ a2 with count := a2.count + 1 }, ?_, ?_, ?_, ?_, ?_⟩
  · simp only [DKArray.Add, hres, hcons]
    simp [DKArray.Count, hcount2, hcount]
  · simp [DKArray.Count, hcount2, hcount]
  · have := hslot2 a.count
    simpa [DKArray.slot, DKArray.Count, hcount] using this
  · intro i hi
    have h2 := hslot2 i
    have hne : i ≠ a1.count := by simp only [DKArray.Count] at hi; omega
    have h1 := hslot i (by simp only [DKArray.Count] at hi; omega)
    have h0 := h.2.2.2 i (by simpa [DKArray.Count] using hi)
    simp only [hne, if_false] at h2
    show a2.slot i = a.slot i
    rw [h2, h1, h0]
  · refine ⟨by simp [hcount2, hlen], by simp only [hcount2, hcap2]; omega,
      by simpa [DKArray.blockSize, hcap2] using hsize2.trans hsize, ?_⟩
    intro i hi
    have h2 := hslot2 i
    show a2.slot i = (xs ++ [v])[i]?
    by_cases hi2 : i = a1.count
    · rw [h2, if_pos hi2, hi2, hlen]
      simp
    · simp only at hi
      rw [h2, if_neg hi2, hslot i (by omega), List.getElem?_append_left (by omega)]

/-- C13, counterexample: on an array that holds 10, 20, 30 in a block of 8 slots,
`Insert(Value(2), 0)` passes a reference to the element 30. The `memmove`
moves 20 into the slot the reference names before the reference is read, so
the array then holds 20, 10, 20, 30 and not 30, 10, 20, 30. -/
theorem Insert_of_own_element_inserts_moved_value :
    (DKArray.ofList [10, 20, 30] 8).Value false 2 = Except.ok (Ref.element 2)
      ∧ (DKArray.ofList [10, 20, 30] 8).readRef false (Ref.element 2) = Except.ok 30
      ∧ ∃ a1, (DKArray.ofList [10, 20, 30] 8).Insert false true (Ref.element 2) 0
          = Except.ok (0, a1)
        ∧ a1.contents = [some 20, some 10, some 20, some 30] :=
  ⟨rfl, rfl, _, rfl, by decide⟩

/-- C13 (amended): for every array that holds `xs`, every position `pos` and every
value `v` passed by a reference to an object that is not an element of the
array, with memory from the allocator `Insert(v, pos)` returns
`p = min(pos, Count())` and the array then holds the first `p` elements of
`xs`, then `v`, then the remaining elements of `xs` in their order. -/
theorem Insert_at_clamped_position (debug : Bool) (a : DKArray α) (xs : List α) (v : α)
    (pos : Nat) (h : a.Holds xs) :
    ∃ a1, a.Insert debug true (Ref.outside v) pos = Except.ok (min pos a.Count, a1)
      ∧ a1.Holds (xs.take (min pos a.Count) ++ v :: xs.drop (min pos a.Count)) := by
  obtain ⟨a1, hres, hholds, hcount, hroom⟩ := a.ReserveItemCapsNL_holds debug 1 xs h
  obtain ⟨hlen, hcap, hsize, hslot⟩ := hholds
  have hp : (if pos > a1.count then a1.count else pos) = min pos a.Count := by
    simp only [DKArray.Count, hcount]
    split_ifs <;> omega
  have hple : min pos a.Count ≤ a1.count := by simp only [DKArray.Count, hcount]; omega
  -- the memmove that makes room
  have hmove : ∃ a2, (if min pos a.Count < a1.count then
        a1.withData (Block.memmove (min pos a.Count + 1) (min pos a.Count)
          (a1.count - min pos a.Count))
      else Except.ok a1) = Except.ok a2 ∧ a2.count = a1.count ∧ a2.capacity = a1.capacity
      ∧ a2.blockSize = a1.blockSize
      ∧ ∀ j, a2.slot j = if min pos a.Count < j ∧ j < a1.count + 1 then a1.slot (j - 1)
          else a1.slot j := by
    by_cases hlt : min pos a.Count < a1.count
    · obtain ⟨a2, hm, hc, hcp, hbs, hsl⟩ := a1.withData_memmove (min pos a.Count + 1)
        (min pos a.Count) (a1.count - min pos a.Count) (by omega) (by omega) (by omega)
      refine ⟨a2, by simp [hlt, hm], hc, hcp, hbs, ?_⟩
      intro j
      rw [hsl j]
      by_cases hj : min pos a.Count < j ∧ j < a1.count + 1
      · have hj2 : min pos a.Count + 1 ≤ j
            ∧ j < min pos a.Count + 1 + (a1.count - min pos a.Count) := by omega
        rw [if_pos hj, if_pos hj2]
        congr 1
        omega
      · have hj2 : ¬ (min pos a.Count + 1 ≤ j
            ∧ j < min pos a.Count + 1 + (a1.count - min pos a.Count)) := by omega
        rw [if_neg hj, if_neg hj2]
    · refine ⟨a1, by simp [hlt], rfl, rfl, rfl, ?_⟩
      intro j
      have hj : ¬ (min pos a.Count < j ∧ j < a1.count + 1) := by omega
      rw [if_neg hj]
  obtain ⟨a2, hm, hc2, hcp2, hbs2, hsl2⟩ := hmove
  obtain ⟨a3, hcons, hc3, hcp3, hbs3, hsl3⟩ :=
    a2.withData_construct (min pos a.Count) v (by omega)
  refine ⟨{ a3 with count := a3.count + 1 }, ?_, ?_⟩
  · simp only [DKArray.Insert, hres, hp, hm, DKArray.readRef, hcons]
  · have hpx : min pos a.Count ≤ xs.length := by omega
    refine ⟨?_, by simp only [hc3, hc2, hcp3, hcp2]; omega,
      by simpa [DKArray.blockSize, hcp3, hcp2] using (hbs3.trans hbs2).trans hsize, ?_⟩
    · simp [hc3, hc2, hlen, List.length_take, hpx]
      omega
    · intro i hi
      simp only [hc3, hc2] at hi
      show a3.slot i = (xs.take (min pos a.Count) ++ v :: xs.drop (min pos a.Count))[i]?
      have hlist := getElem?_take_append_drop xs [v] (min pos a.Count) i hpx
      simp only [List.append_assoc, List.singleton_append, List.length_singleton] at hlist
      rw [hlist, hsl3 i, hsl2 i]
      by_cases h1 : i < min pos a.Count
      · have hne : i ≠ min pos a.Count := by omega
        have hno : ¬ (min pos a.Count < i ∧ i < a1.count + 1) := by omega
        rw [if_neg hne, if_neg hno, if_pos h1, hslot i (by omega)]
      · by_cases h2 : i = min pos a.Count
        · rw [if_pos h2, if_neg h1, if_pos (by omega)]
          simp [h2]
        · have hyes : min pos a.Count < i ∧ i < a1.count + 1 := by omega
          rw [if_neg h2, if_pos hyes, if_neg h1, if_neg (by omega), hslot (i - 1) (by omega)]

/-- The `memmove` of the insert functions moves the elements from position `p` on
up by `s` slots. -/
theorem DKArray.makeRoom (a : DKArray α) (p s : Nat) (hp : p ≤ a.count)
    (hroom : a.count + s ≤ a.blockSize) :
    ∃ a1, (if p < a.count then a.withData (Block.memmove (p + s) p (a.count - p))
        else Except.ok a) = Except.ok a1 ∧ a1.count = a.count ∧ a1.capacity = a.capacity
      ∧ a1.blockSize = a.blockSize
      ∧ ∀ j, a1.slot j = if p + s ≤ j ∧ j < a.count + s then a.slot (j - s) else a.slot j := by
  by_cases hlt : p < a.count
  · obtain ⟨a1, hm, hc, hcp, hbs, hsl⟩ := a.withData_memmove (p + s) p (a.count - p)
      (by omega) (by omega) (by omega)
    refine ⟨a1, by simp [hlt, hm], hc, hcp, hbs, ?_⟩
    intro j
    rw [hsl j]
    by_cases hj : p + s ≤ j ∧ j < a.count + s
    · have hj2 : p + s ≤ j ∧ j < p + s + (a.count - p) := by omega
      rw [if_pos hj, if_pos hj2]
      congr 1
      omega
    · have hj2 : ¬ (p + s ≤ j ∧ j < p + s + (a.count - p)) := by omega
      rw [if_neg hj, if_neg hj2]
  · refine ⟨a, by simp [hlt], rfl, rfl, rfl, ?_⟩
    intro j
    have hj : ¬ (p + s ≤ j ∧ j < a.count + s) := by omega
    rw [if_neg hj]

/-- The construction loop over a source array outside the block fills the slots
from `pos + i` on with the elements of the source from index `i` on. -/
theorem DKArray.constructFrom_slots (moved : Bool) (value : List α) (pos : Nat) (n i : Nat)
    (a : DKArray α) (hv : i + n ≤ value.length) (hroom : pos + i + n ≤ a.blockSize) :
    ∃ a1, DKArray.constructFrom moved (Source.outside value) pos n i a = Except.ok a1
      ∧ a1.count = a.count
      ∧ a1.capacity = a.capacity ∧ a1.blockSize = a.blockSize
      ∧ ∀ j, a1.slot j = if pos + i ≤ j ∧ j < pos + i + n then value[j - pos]? else a.slot j := by
  induction n generalizing i a with
  | zero =>
    refine ⟨a, rfl, rfl, rfl, rfl, ?_⟩
    intro j
    have hj : ¬ (pos + i ≤ j ∧ j < pos + i + 0) := by omega
    rw [if_neg hj]
  | succ n ih =>
    have hi : i < value.length := by omega
    obtain ⟨a1, hcons, hc1, hcp1, hbs1, hsl1⟩ :=
      a.withData_construct (pos + i) value[i] (by omega)
    obtain ⟨a2, hloop, hc2, hcp2, hbs2, hsl2⟩ := ih (i + 1) a1 (by omega) (by omega)
    refine ⟨a2, ?_, hc2.trans hc1, hcp2.trans hcp1, hbs2.trans hbs1, ?_⟩
    · simp only [DKArray.constructFrom, DKArray.readSource, List.getElem?_eq_getElem hi,
        hcons, hloop]
    · intro j
      rw [hsl2 j, hsl1 j]
      by_cases h1 : j = pos + i
      · have hno : ¬ (pos + (i + 1) ≤ j ∧ j < pos + (i + 1) + n) := by omega
        have hyes : pos + i ≤ j ∧ j < pos + i + (n + 1) := by omega
        rw [if_neg hno, if_pos h1, if_pos hyes]
        have : j - pos = i := by omega
        rw [this, List.getElem?_eq_getElem hi]
      · by_cases h2 : pos + (i + 1) ≤ j ∧ j < pos + (i + 1) + n
        · have hyes : pos + i ≤ j ∧ j < pos + i + (n + 1) := by omega
          rw [if_pos h2, if_pos hyes]
        · have hno : ¬ (pos + i ≤ j ∧ j < pos + i + (n + 1)) := by omega
          rw [if_neg h2, if_neg h1, if_neg hno]

/-- The construction loop over an initializer list fills the slots from `pos` on
with the elements of the list and ends with `pos` advanced by its length. -/
theorem DKArray.constructEach_slots (il : List α) (pos : Nat) (a : DKArray α)
    (hroom : pos + il.length ≤ a.blockSize) :
    ∃ a1, DKArray.constructEach il pos a = Except.ok (pos + il.length, a1)
      ∧ a1.count = a.count ∧ a1.capacity = a.capacity ∧ a1.blockSize = a.blockSize
      ∧ ∀ j, a1.slot j = if pos ≤ j ∧ j < pos + il.length then il[j - pos]? else a.slot j := by
  induction il generalizing pos a with
  | nil =>
    refine ⟨a, rfl, rfl, rfl, rfl, ?_⟩
    intro j
    have hj : ¬ (pos ≤ j ∧ j < pos + ([] : List α).length) := by simp
    rw [if_neg hj]
  | cons v rest ih =>
    simp only [List.length_cons] at hroom
    obtain ⟨a1, hcons, hc1, hcp1, hbs1, hsl1⟩ := a.withData_construct pos v (by omega)
    obtain ⟨a2, hloop, hc2, hcp2, hbs2, hsl2⟩ := ih (pos + 1) a1 (by omega)
    refine ⟨a2, ?_, hc2.trans hc1, hcp2.trans hcp1, hbs2.trans hbs1, ?_⟩
    · simp only [DKArray.constructEach, hcons, hloop, List.length_cons]
      congr 2
      omega
    · intro j
      rw [hsl2 j, hsl1 j]
      simp only [List.length_cons]
      by_cases h1 : j = pos
      · have hno : ¬ (pos + 1 ≤ j ∧ j < pos + 1 + rest.length) := by omega
        have hyes : pos ≤ j ∧ j < pos + (rest.length + 1) := by omega
        rw [if_neg hno, if_pos h1, if_pos hyes]
        simp [h1]
      · by_cases h2 : pos + 1 ≤ j ∧ j < pos + 1 + rest.length
        · have hyes : pos ≤ j ∧ j < pos + (rest.length + 1) := by omega
          rw [if_pos h2, if_pos hyes]
          have : j - pos = (j - (pos + 1)) + 1 := by omega
          rw [this, List.getElem?_cons_succ]
        · have hno : ¬ (pos ≤ j ∧ j < pos + (rest.length + 1)) := by omega
          rw [if_neg h2, if_neg h1, if_neg hno]

/-- After room was made at `p` and the slots from `p` on were filled with `vs`,
the array holds `xs` with `vs` inserted at `p`. -/
theorem DKArray.holds_inserted (a a3 : DKArray α) (xs vs : List α) (p : Nat)
    (h : a.Holds xs) (hp : p ≤ a.count) (hroom : a.count + vs.length ≤ a.capacity)
    (hc : a3.count = a.count) (hcp : a3.capacity = a.capacity)
    (hbs : a3.blockSize = a.blockSize)
    (hsl : ∀ j, a3.slot j = if p ≤ j ∧ j < p + vs.length then vs[j - p]?
      else if p + vs.length ≤ j ∧ j < a.count + vs.length then a.slot (j - vs.length)
      else a.slot j) :
    DKArray.Holds { a3 with count := a3.count + vs.length } (xs.take p ++ vs ++ xs.drop p) := by
  obtain ⟨hlen, hcap, hsize, hslot⟩ := h
  have hpx : p ≤ xs.length := by omega
  refine ⟨?_, by simp only [hc, hcp]; omega,
    by simpa [DKArray.blockSize, hcp] using hbs.trans hsize, ?_⟩
  · simp [hc, hlen, List.length_take, hpx]
    omega
  · intro i hi
    simp only [hc] at hi
    show a3.slot i = (xs.take p ++ vs ++ xs.drop p)[i]?
    rw [getElem?_take_append_drop xs vs p i hpx, hsl i]
    by_cases h1 : i < p
    · have hno1 : ¬ (p ≤ i ∧ i < p + vs.length) := by omega
      have hno2 : ¬ (p + vs.length ≤ i ∧ i < a.count + vs.length) := by omega
      rw [if_neg hno1, if_neg hno2, if_pos h1, hslot i (by omega)]
    · by_cases h2 : i < p + vs.length
      · have hyes : p ≤ i ∧ i < p + vs.length := by omega
        rw [if_pos hyes, if_neg h1, if_pos h2]
      · have hno1 : ¬ (p ≤ i ∧ i < p + vs.length) := by omega
        have hyes : p + vs.length ≤ i ∧ i < a.count + vs.length := by omega
        rw [if_neg hno1, if_pos hyes, if_neg h1, if_neg h2, hslot (i - vs.length) (by omega)]

/-- C14, counterexample: on an array that holds 1, 2 in a block of 8 slots,
`Insert(a, 1)` with the array itself as the argument passes on the array's own
pointer and count. The loop reads `value[1]` from the slot it has just
written, so the array then holds 1, 1, 1, 2 and not 1, 1, 2, 2. -/
theorem InsertArray_of_own_block_rereads_written_slot :
    ∃ a1, (DKArray.ofList [1, 2] 8).InsertSelf false true 1 = Except.ok (1, a1)
      ∧ a1.contents = [some 1, some 1, some 1, some 2] :=
  ⟨_, rfl, by decide⟩

/-- C14 (amended): for every array that holds `xs`, every position `pos` and every
sequence `vs` of `s` values that lies outside the block of the array, with
memory from the allocator `Insert(vs, s, pos)` returns
`p = min(pos, Count())`, the array then holds `take p xs ++ vs ++ drop p xs`
and `Count()` has grown by exactly `s`; the initializer-list overload
`Insert(il, pos)` returns the same index and leaves the same contents. -/
theorem InsertArray_at_clamped_position (debug : Bool) (a : DKArray α) (xs vs : List α)
    (pos : Nat) (h : a.Holds xs) :
    (∃ a1, a.InsertArray debug true (Source.outside vs) vs.length pos
          = Except.ok (min pos a.Count, a1)
        ∧ a1.Holds (xs.take (min pos a.Count) ++ vs ++ xs.drop (min pos a.Count))
        ∧ a1.Count = a.Count + vs.length)
      ∧ ∃ a2, a.InsertList debug true vs pos = Except.ok (min pos a.Count, a2)
        ∧ a2.Holds (xs.take (min pos a.Count) ++ vs ++ xs.drop (min pos a.Count))
        ∧ a2.Count = a.Count + vs.length := by
  obtain ⟨a1, hres, hholds, hcount, hroom⟩ := a.ReserveItemCapsNL_holds debug vs.length xs h
  have hsize := hholds.2.2.1
  have hp : (if pos > a1.count then a1.count else pos) = min pos a.Count := by
    simp only [DKArray.Count, hcount]
    split_ifs <;> omega
  have hple : min pos a.Count ≤ a1.count := by simp only [DKArray.Count, hcount]; omega
  obtain ⟨a2, hm, hc2, hcp2, hbs2, hsl2⟩ :=
    a1.makeRoom (min pos a.Count) vs.length hple (by omega)
  have hfinal : ∀ a3 : DKArray α, a3.count = a2.count → a3.capacity = a2.capacity →
      a3.blockSize = a2.blockSize →
      (∀ j, a3.slot j = if min pos a.Count ≤ j ∧ j < min pos a.Count + vs.length
        then vs[j - min pos a.Count]? else a2.slot j) →
      DKArray.Holds { a3 with count := a3.count + vs.length }
          (xs.take (min pos a.Count) ++ vs ++ xs.drop (min pos a.Count))
        ∧ a3.count + vs.length = a.Count + vs.length := by
    intro a3 hc3 hcp3 hbs3 hsl3
    refine ⟨DKArray.holds_inserted a1 a3 xs vs (min pos a.Count) hholds hple hroom
      (hc3.trans hc2) (hcp3.trans hcp2) (hbs3.trans hbs2) ?_, ?_⟩
    · intro j
      rw [hsl3 j, hsl2 j]
    · simp only [DKArray.Count, hc3, hc2, hcount]
  constructor
  · obtain ⟨a3, hloop, hc3, hcp3, hbs3, hsl3⟩ :=
      DKArray.constructFrom_slots (decide (a1.capacity ≠ a.capacity)) vs (min pos a.Count)
        vs.length 0 a2 (by omega) (by omega)
    have hf := hfinal a3 hc3 hcp3 hbs3 (by
      intro j
      rw [hsl3 j]
      simp only [Nat.add_zero])
    refine ⟨{ a3 with count := a3.count + vs.length }, ?_, hf.1, hf.2⟩
    simp only [DKArray.InsertArray, hres, hp, hm, hloop]
  · obtain ⟨a3, hloop, hc3, hcp3, hbs3, hsl3⟩ :=
      DKArray.constructEach_slots vs (min pos a.Count) a2 (by omega)
    have hf := hfinal a3 hc3 hcp3 hbs3 hsl3
    refine ⟨{ a3 with count := a3.count + vs.length }, ?_, hf.1, hf.2⟩
    simp only [DKArray.InsertList, hres, hp, hm, hloop, Nat.add_sub_cancel]

/-- The element at an index of a list from which `k` elements at `p` were cut. -/
theorem getElem?_take_append_drop_add (xs : List α) (p k i : Nat) (hp : p ≤ xs.length) :
    (xs.take p ++ xs.drop (p + k))[i]? = if i < p then xs[i]? else xs[i + k]? := by
  have hlen : (xs.take p).length = p := by simp [hp]
  by_cases h1 : i < p
  · rw [List.getElem?_append_left (by omega)]
    simp [h1, List.getElem?_take]
  · rw [List.getElem?_append_right (by omega)]
    simp only [h1, if_false, List.getElem?_drop, hlen]
    congr 1
    omega

/-- After `k` elements at `p` were destroyed and the elements behind them moved
down, the array holds `xs` without those `k` elements. -/
theorem DKArray.holds_removed (a a2 : DKArray α) (xs : List α) (p k : Nat)
    (h : a.Holds xs) (hpk : p + k ≤ a.count)
    (hc : a2.count = a.count) (hcp : a2.capacity = a.capacity)
    (hbs : a2.blockSize = a.blockSize)
    (hsl : ∀ j, j < a.count - k → a2.slot j = if j < p then a.slot j else a.slot (j + k)) :
    DKArray.Holds { a2 with count := a2.count - k } (xs.take p ++ xs.drop (p + k)) := by
  obtain ⟨hlen, hcap, hsize, hslot⟩ := h
  have hpx : p ≤ xs.length := by omega
  refine ⟨?_, by simp only [hc, hcp]; omega,
    by simpa [DKArray.blockSize, hcp] using hbs.trans hsize, ?_⟩
  · simp [hc, hlen, List.length_take, hpx]
    omega
  · intro i hi
    simp only [hc] at hi
    show a2.slot i = (xs.take p ++ xs.drop (p + k))[i]?
    rw [getElem?_take_append_drop_add xs p k i hpx, hsl i hi]
    by_cases h1 : i < p
    · rw [if_pos h1, if_pos h1, hslot i (by omega)]
    · rw [if_neg h1, if_neg h1, hslot (i + k) (by omega)]

/-- The destruction loop destroys the objects from `pos + i` on until `n` objects
are done or `i` reaches `c`. -/
theorem DKArray.destroyFrom_slots (pos c n i : Nat) (a : DKArray α)
    (hsome : ∀ j, pos + i ≤ j → j < pos + i + n → (a.slot j).isSome = true) :
    ∃ a1, DKArray.destroyFrom pos c n i a = Except.ok (i + min n (c - i), a1)
      ∧ a1.count = a.count ∧ a1.capacity = a.capacity ∧ a1.blockSize = a.blockSize
      ∧ ∀ j, a1.slot j = if pos + i ≤ j ∧ j < pos + i + min n (c - i) then none
          else a.slot j := by
  induction n generalizing i a with
  | zero =>
    refine ⟨a, by simp [DKArray.destroyFrom], rfl, rfl, rfl, ?_⟩
    intro j
    have hj : ¬ (pos + i ≤ j ∧ j < pos + i + min 0 (c - i)) := by omega
    rw [if_neg hj]
  | succ n ih =>
    by_cases hic : i < c
    · obtain ⟨a1, hd, hc1, hcp1, hbs1, hsl1⟩ :=
        a.withData_destroy (pos + i) (hsome (pos + i) (by omega) (by omega))
      have hsome1 : ∀ j, pos + (i + 1) ≤ j → j < pos + (i + 1) + n →
          (a1.slot j).isSome = true := by
        intro j hj1 hj2
        rw [hsl1 j, if_neg (by omega)]
        exact hsome j (by omega) (by omega)
      obtain ⟨a2, hloop, hc2, hcp2, hbs2, hsl2⟩ := ih (i + 1) a1 hsome1
      refine ⟨a2, ?_, hc2.trans hc1, hcp2.trans hcp1, hbs2.trans hbs1, ?_⟩
      · simp only [DKArray.destroyFrom, hic, if_true, hd, hloop]
        congr 2
        omega
      · intro j
        rw [hsl2 j, hsl1 j]
        by_cases h1 : j = pos + i
        · have hyes : pos + i ≤ j ∧ j < pos + i + min (n + 1) (c - i) := by omega
          rw [if_pos hyes]
          split_ifs <;> rfl
        · by_cases h2 : pos + (i + 1) ≤ j ∧ j < pos + (i + 1) + min n (c - (i + 1))
          · have hyes : pos + i ≤ j ∧ j < pos + i + min (n + 1) (c - i) := by omega
            rw [if_pos h2, if_pos hyes]
          · have hno : ¬ (pos + i ≤ j ∧ j < pos + i + min (n + 1) (c - i)) := by omega
            rw [if_neg h2, if_neg h1, if_neg hno]
    · refine ⟨a, ?_, rfl, rfl, rfl, ?_⟩
      · simp only [DKArray.destroyFrom, hic, if_false]
        congr 2
        omega
      · intro j
        have hj : ¬ (pos + i ≤ j ∧ j < pos + i + min (n + 1) (c - i)) := by omega
        rw [if_neg hj]

/-- C16: for every array that holds `xs`, every index `pos` and every number
`c`: if `pos < Count()`, `Remove(pos, c)` removes exactly
`min(c, Count() - pos)` consecutive elements from `pos` on, so that the array
holds `take pos xs ++ drop (pos + min(c, Count() - pos)) xs`; otherwise the
array is unchanged; in both cases the call returns the new `Count()`. -/
theorem RemoveCount_removes_range (a : DKArray α) (xs : List α) (pos c : Nat)
    (h : a.Holds xs) :
    (pos < a.Count →
        ∃ a1, a.RemoveCount pos c = Except.ok (a1.Count, a1)
          ∧ a1.Count = a.Count - min c (a.Count - pos)
          ∧ a1.Holds (xs.take pos ++ xs.drop (pos + min c (a.Count - pos))))
      ∧ (a.Count ≤ pos → a.RemoveCount pos c = Except.ok (a.Count, a)) := by
  constructor
  · intro hpos
    simp only [DKArray.Count] at hpos
    have hslot := h.2.2.2
    have hlen := h.1
    have hsome : ∀ j, pos + 0 ≤ j → j < pos + 0 + (a.count - pos) →
        (a.slot j).isSome = true := by
      intro j _ hj
      rw [hslot j (by omega), List.getElem?_eq_getElem (by omega)]
      rfl
    obtain ⟨a1, hloop, hc1, hcp1, hbs1, hsl1⟩ :=
      DKArray.destroyFrom_slots pos c (a.count - pos) 0 a hsome
    simp only [Nat.zero_add, Nat.sub_zero, Nat.add_zero] at hloop hsl1
    have hk : min (a.count - pos) c = min c (a.Count - pos) := by
      simp only [DKArray.Count]; omega
    simp only [hk] at hloop hsl1
    have hkle : pos + min c (a.Count - pos) ≤ a.count := by simp only [DKArray.Count]; omega
    have hbsz : a.blockSize = a.capacity := h.2.2.1
    have hcap : a.count ≤ a.capacity := h.2.1
    have hmove : ∃ a2, (if min c (a.Count - pos) > 0 then
          a1.withData (Block.memmove pos (pos + min c (a.Count - pos))
            (a1.count - pos - min c (a.Count - pos)))
        else Except.ok a1) = Except.ok a2 ∧ a2.count = a.count ∧ a2.capacity = a.capacity
        ∧ a2.blockSize = a.blockSize
        ∧ ∀ j, j < a.count - min c (a.Count - pos) →
            a2.slot j = if j < pos then a.slot j else a.slot (j + min c (a.Count - pos)) := by
      by_cases hk0 : min c (a.Count - pos) > 0
      · obtain ⟨a2, hm, hc2, hcp2, hbs2, hsl2⟩ := a1.withData_memmove pos
          (pos + min c (a.Count - pos)) (a1.count - pos - min c (a.Count - pos))
          (by omega) (by omega) (by omega)
        refine ⟨a2, by simp only [hk0, if_true, hm], hc2.trans hc1, hcp2.trans hcp1,
          hbs2.trans hbs1, ?_⟩
        intro j hj
        rw [hsl2 j]
        by_cases h1 : j < pos
        · have hno : ¬ (pos ≤ j ∧ j < pos + (a1.count - pos - min c (a.Count - pos))) := by
            omega
          rw [if_neg hno, if_pos h1, hsl1 j, if_neg (by omega)]
        · have hyes : pos ≤ j ∧ j < pos + (a1.count - pos - min c (a.Count - pos)) := by
            omega
          rw [if_pos hyes, if_neg h1, hsl1, if_neg (by omega)]
          congr 1
          omega
      · refine ⟨a1, by simp only [hk0, if_false], hc1, hcp1, hbs1, ?_⟩
        intro j hj
        have hz : min c (a.Count - pos) = 0 := by omega
        rw [hsl1 j, if_neg (by omega), hz]
        split_ifs <;> rfl
    obtain ⟨a2, hm, hc2, hcp2, hbs2, hsl2⟩ := hmove
    refine ⟨{ a2 with count := a2.count - min c (a.Count - pos) }, ?_, ?_, ?_⟩
    · simp only [DKArray.Count] at hm hloop ⊢
      simp only [DKArray.RemoveCount, hpos, if_true, hloop, hm]
    · simp only [DKArray.Count, hc2]
    · exact DKArray.holds_removed a a2 xs pos (min c (a.Count - pos)) h hkle hc2 hcp2 hbs2 hsl2
  · intro hpos
    simp only [DKArray.Count] at hpos
    have hno : ¬ (pos < a.count) := by omega
    simp [DKArray.RemoveCount, hno, DKArray.Count]

/-- C15: for every array that holds `xs` and every index `pos`: if
`pos < Count()`, `Remove(pos)` returns `Count() - 1` and the array then holds
`xs` with exactly the element at index `pos` erased, the others in their
order; if `pos >= Count()`, the array is unchanged and the call returns the
unchanged `Count()`. -/
theorem Remove_erases_one (a : DKArray α) (xs : List α) (pos : Nat) (h : a.Holds xs) :
    (pos < a.Count →
        ∃ a1, a.Remove pos = Except.ok (a.Count - 1, a1)
          ∧ a1.Count = a.Count - 1
          ∧ a1.Holds (xs.eraseIdx pos))
      ∧ (a.Count ≤ pos → a.Remove pos = Except.ok (a.Count, a)) := by
  constructor
  · intro hpos
    simp only [DKArray.Count] at hpos
    have hslot := h.2.2.2
    have hlen := h.1
    have hbsz : a.blockSize = a.capacity := h.2.2.1
    have hcap : a.count ≤ a.capacity := h.2.1
    have hsome : (a.slot pos).isSome = true := by
      rw [hslot pos hpos, List.getElem?_eq_getElem (by omega)]
      rfl
    obtain ⟨a1, hd, hc1, hcp1, hbs1, hsl1⟩ := a.withData_destroy pos hsome
    have hmove : ∃ a2, (if a1.count - pos > 1 then
          a1.withData (Block.memmove pos (pos + 1) (a1.count - pos - 1))
        else Except.ok a1) = Except.ok a2 ∧ a2.count = a.count ∧ a2.capacity = a.capacity
        ∧ a2.blockSize = a.blockSize
        ∧ ∀ j, j < a.count - 1 → a2.slot j = if j < pos then a.slot j else a.slot (j + 1) := by
      by_cases hk0 : a1.count - pos > 1
      · obtain ⟨a2, hm, hc2, hcp2, hbs2, hsl2⟩ := a1.withData_memmove pos
          (pos + 1) (a1.count - pos - 1) (by omega) (by omega) (by omega)
        refine ⟨a2, by simp only [hk0, if_true, hm], hc2.trans hc1, hcp2.trans hcp1,
          hbs2.trans hbs1, ?_⟩
        intro j hj
        rw [hsl2 j]
        by_cases h1 : j < pos
        · have hno : ¬ (pos ≤ j ∧ j < pos + (a1.count - pos - 1)) := by omega
          rw [if_neg hno, if_pos h1, hsl1 j, if_neg (by omega)]
        · have hyes : pos ≤ j ∧ j < pos + (a1.count - pos - 1) := by omega
          rw [if_pos hyes, if_neg h1, hsl1, if_neg (by omega)]
          congr 1
          omega
      · refine ⟨a1, by simp only [hk0, if_false], hc1, hcp1, hbs1, ?_⟩
        intro j hj
        have h1 : j < pos := by omega
        rw [hsl1 j, if_neg (by omega), if_pos h1]
    obtain ⟨a2, hm, hc2, hcp2, hbs2, hsl2⟩ := hmove
    refine ⟨{ a2 with count := a2.count - 1 }, ?_, ?_, ?_⟩
    · simp only [DKArray.Remove, hpos, if_true, hd, hm]
      simp only [DKArray.Count, hc2]
    · simp only [DKArray.Count, hc2]
    · rw [List.eraseIdx_eq_take_drop_succ]
      exact DKArray.holds_removed a a2 xs pos 1 h (by omega) hc2 hcp2 hbs2 hsl2
  · intro hpos
    simp only [DKArray.Count] at hpos
    have hno : ¬ (pos < a.count) := by omega
    simp [DKArray.Remove, hno, DKArray.Count]

/-- An object in a slot of the array can be read through `data`. -/
theorem DKArray.read_of_slot (a : DKArray α) (i : Nat) (v : α) (h : a.slot i = some v) :
    ∃ b, a.data = some b ∧ b.read i = Except.ok v := by
  cases hd : a.data with
  | none => simp [DKArray.slot, hd] at h
  | some b =>
    have hi : i < b.size := by
      by_contra hn
      simp [DKArray.slot, hd, hn] at h
    have hs : b.slot i = some v := by simpa [DKArray.slot, hd, hi] using h
    exact ⟨b, rfl, by simp [Block.read, hi, hs]⟩

/-- An assignment to an object of the block sets that slot and no other. -/
theorem DKArray.withData_assign (a : DKArray α) (i : Nat) (v : α)
    (h : (a.slot i).isSome = true) :
    ∃ a1, a.withData (Block.assign i v) = Except.ok a1 ∧ a1.count = a.count
      ∧ a1.capacity = a.capacity ∧ a1.blockSize = a.blockSize
      ∧ ∀ j, a1.slot j = if j = i then some v else a.slot j := by
  cases hd : a.data with
  | none => simp [DKArray.slot, hd] at h
  | some b =>
    have hi : i < b.size := by
      by_contra hn
      simp [DKArray.slot, hd, hn] at h
    have hsome : (b.slot i).isSome = true := by
      simpa [DKArray.slot, hd, hi] using h
    refine ⟨{ a with data := some ⟨b.size, fun j => if j = i then some v else b.slot j⟩ },
      ?_, rfl, rfl, ?_, ?_⟩
    · simp [DKArray.withData, hd, Block.assign, hi, hsome]
    · simp [DKArray.blockSize, hd]
    · intro j
      simp only [DKArray.slot, hd]
      by_cases hj : j = i
      · subst hj; simp [hi]
      · simp [hj]

/-- C17, counterexample: on an array that holds 10, 20, 30,
`CopyValue(Value(0), 1)` passes the element at index 0 as the output variable:
the call returns `true` and has assigned 20 to that element, so the array then
holds 20, 20, 30. -/
theorem CopyValue_into_own_element_changes_array :
    (DKArray.ofList [10, 20, 30] 4).Value false 0 = Except.ok (Ref.element 0)
      ∧ (DKArray.ofList [10, 20, 30] 4).contents = [some 10, some 20, some 30]
      ∧ ∃ a1, (DKArray.ofList [10, 20, 30] 4).CopyValue (Ref.element 0) 1
          = Except.ok (true, Ref.element 0, a1)
        ∧ a1.contents = [some 20, some 20, some 30] :=
  ⟨rfl, by decide, _, rfl, by decide⟩

/-- C17 (amended): for every array that holds `xs`, every index and every output
variable `value` that is not an element of the array: if `index < Count()`,
`CopyValue(value, index)` returns `true` and sets `value` to the element at
`index`; otherwise it returns `false` and leaves `value` unchanged; in both
cases the array after the call is the array before it, with its contents,
count and capacity. -/
theorem CopyValue_checks_index (a : DKArray α) (xs : List α) (value : α) (index : Nat)
    (h : a.Holds xs) :
    (index < a.Count →
        ∃ x, xs[index]? = some x
          ∧ a.CopyValue (Ref.outside value) index = Except.ok (true, Ref.outside x, a))
      ∧ (a.Count ≤ index →
          a.CopyValue (Ref.outside value) index = Except.ok (false, Ref.outside value, a)) := by
  constructor
  · intro hi
    simp only [DKArray.Count] at hi
    have hx : index < xs.length := by have := h.1; omega
    have hslot : a.slot index = some xs[index] := by
      rw [h.2.2.2 index hi, List.getElem?_eq_getElem hx]
    obtain ⟨b, hd, hread⟩ := a.read_of_slot index _ hslot
    refine ⟨xs[index], List.getElem?_eq_getElem hx, ?_⟩
    simp [DKArray.CopyValue, hi, hd, hread]
  · intro hi
    simp only [DKArray.Count] at hi
    have hno : ¬ (a.count > index) := by omega
    simp [DKArray.CopyValue, hno]

/-- The loop of the one-argument `EnumerateForward` calls the enumerator on each
of the remaining elements, in ascending index order. -/
theorem DKArray.enumerateForwardOneFrom_calls (f : σ → α → σ × α) (xs : List α)
    (n i : Nat) (s : σ) (a : DKArray α) (hn : i + n = xs.length)
    (hslot : ∀ j, i ≤ j → j < xs.length → a.slot j = xs[j]?) :
    ∃ s1 a1 calls, DKArray.enumerateForwardOneFrom f n i s a = Except.ok (s1, a1, calls)
      ∧ calls.map (fun c => (c.index, c.value)) = (xs.drop i).enumFrom i
      ∧ ∀ c ∈ calls, c.stop = false := by
  induction n generalizing i s a with
  | zero =>
    refine ⟨s, a, [], rfl, ?_, by simp⟩
    have : xs.drop i = [] := List.drop_eq_nil_of_le (by omega)
    simp [this]
  | succ n ih =>
    have hi : i < xs.length := by omega
    have hsl : a.slot i = some xs[i] := by
      rw [hslot i (le_refl _) hi, List.getElem?_eq_getElem hi]
    obtain ⟨b, hd, hread⟩ := a.read_of_slot i _ hsl
    obtain ⟨a1, hassign, _, _, _, hsl1⟩ :=
      a.withData_assign i (f s xs[i]).2 (by rw [hsl]; rfl)
    have hslot1 : ∀ j, i + 1 ≤ j → j < xs.length → a1.slot j = xs[j]? := by
      intro j hj1 hj2
      rw [hsl1 j, if_neg (by omega)]
      exact hslot j (by omega) hj2
    obtain ⟨s2, a2, calls, hloop, hmap, hstop⟩ := ih (i + 1) (f s xs[i]).1 a1 (by omega) hslot1
    refine ⟨s2, a2, ⟨i, xs[i], false⟩ :: calls, ?_, ?_, ?_⟩
    · simp only [DKArray.enumerateForwardOneFrom, hd, hread, hassign, hloop]
    · have henum : (xs.drop i).enumFrom i
          = (i, xs[i]) :: (xs.drop (i + 1)).enumFrom (i + 1) := by
        rw [List.drop_eq_getElem_cons hi, List.enumFrom_cons]
      rw [henum, List.map_cons, hmap]
    · intro c hc
      rcases List.mem_cons.mp hc with rfl | hc
      · rfl
      · exact hstop c hc

/-- The loop of the two-argument `EnumerateForward` calls the enumerator on the
remaining elements in ascending index order while `stop` is false. -/
theorem DKArray.enumerateForwardTwoFrom_calls (f : σ → α → Bool → σ × α × Bool)
    (xs : List α) (n i : Nat) (stop : Bool) (s : σ) (a : DKArray α)
    (hn : i + n = xs.length)
    (hslot : ∀ j, i ≤ j → j < xs.length → a.slot j = xs[j]?) :
    ∃ s1 a1 calls, DKArray.enumerateForwardTwoFrom f n i stop s a = Except.ok (s1, a1, calls)
      ∧ calls.map (fun c => (c.index, c.value)) <+: (xs.drop i).enumFrom i
      ∧ (stop = true → calls = [])
      ∧ (∀ k c, calls[k]? = some c → c.stop = true → k + 1 = calls.length)
      ∧ (calls.length < n → stop = true ∨ ∃ c, calls.getLast? = some c ∧ c.stop = true) := by
  induction n generalizing i stop s a with
  | zero =>
    refine ⟨s, a, [], rfl, List.nil_prefix, fun _ => rfl, ?_, ?_⟩
    · intro k c hk
      simp at hk
    · intro hlt
      simp at hlt
  | succ n ih =>
    cases stop with
    | true =>
      refine ⟨s, a, [], by simp [DKArray.enumerateForwardTwoFrom], List.nil_prefix,
        fun _ => rfl, ?_, fun _ => Or.inl rfl⟩
      intro k c hk
      simp at hk
    | false =>
      have hi : i < xs.length := by omega
      have hsl : a.slot i = some xs[i] := by
        rw [hslot i (le_refl _) hi, List.getElem?_eq_getElem hi]
      obtain ⟨b, hd, hread⟩ := a.read_of_slot i _ hsl
      obtain ⟨a1, hassign, _, _, _, hsl1⟩ :=
        a.withData_assign i (f s xs[i] false).2.1 (by rw [hsl]; rfl)
      have hslot1 : ∀ j, i + 1 ≤ j → j < xs.length → a1.slot j = xs[j]? := by
        intro j hj1 hj2
        rw [hsl1 j, if_neg (by omega)]
        exact hslot j (by omega) hj2
      obtain ⟨s2, a2, calls, hloop, hpre, hstopped, hlast, hearly⟩ :=
        ih (i + 1) (f s xs[i] false).2.2 (f s xs[i] false).1 a1 (by omega) hslot1
      refine ⟨s2, a2, ⟨i, xs[i], (f s xs[i] false).2.2⟩ :: calls, ?_, ?_, ?_, ?_, ?_⟩
      · simp [DKArray.enumerateForwardTwoFrom, hd, hread, hassign, hloop]
      · have henum : (xs.drop i).enumFrom i
            = (i, xs[i]) :: (xs.drop (i + 1)).enumFrom (i + 1) := by
          rw [List.drop_eq_getElem_cons hi, List.enumFrom_cons]
        rw [henum, List.map_cons]
        exact (List.prefix_cons_inj _).mpr hpre
      · intro hfalse
        cases hfalse
      · intro k c hk hc
        cases k with
        | zero =>
          simp only [List.getElem?_cons_zero, Option.some.injEq] at hk
          subst hk
          simp only at hc
          simp [hstopped hc]
        | succ k =>
          simp only [List.getElem?_cons_succ] at hk
          have := hlast k c hk hc
          simp only [List.length_cons]
          omega
      · intro hlt
        right
        simp only [List.length_cons, Nat.add_lt_add_iff_right] at hlt
        rcases hearly hlt with hst | ⟨c, hc, hcs⟩
        · refine ⟨⟨i, xs[i], (f s xs[i] false).2.2⟩, ?_, hst⟩
          simp [hstopped hst]
        · refine ⟨c, ?_, hcs⟩
          cases hcalls : calls with
          | nil => simp [hcalls] at hc
          | cons c0 rest =>
            rw [hcalls] at hc
            simpa [List.getLast?_cons_cons] using hc

/-- C18: for every array that holds `xs` and every enumerator, `EnumerateForward`
returns, and the calls it makes are on the elements of `xs` in ascending index
order from index 0, each element at most once. A call that sets the boolean is
the last call; the iteration ends before the last element only after a call
that set the boolean; an enumerator that never sets it, and every one-argument
enumerator, is called exactly once on each of the `Count()` elements. -/
theorem EnumerateForward_visits_in_order (enumerator : Enumerator σ α) (s : σ)
    (a : DKArray α) (xs : List α) (h : a.Holds xs) :
    ∃ s1 a1 calls, a.EnumerateForward enumerator s = Except.ok (s1, a1, calls)
      ∧ calls.map (fun c => (c.index, c.value)) <+: xs.enum
      ∧ (∀ k c, calls[k]? = some c → c.stop = true → k + 1 = calls.length)
      ∧ (calls.length < a.Count → ∃ c, calls.getLast? = some c ∧ c.stop = true)
      ∧ ((∀ c ∈ calls, c.stop = false) →
          calls.map (fun c => (c.index, c.value)) = xs.enum ∧ calls.length = a.Count)
      ∧ (∀ f, enumerator = Enumerator.one f →
          calls.map (fun c => (c.index, c.value)) = xs.enum ∧ calls.length = a.Count) := by
  have hlen : a.count = xs.length := h.1
  have hslot : ∀ j, 0 ≤ j → j < xs.length → a.slot j = xs[j]? :=
    fun j _ hj => h.2.2.2 j (by omega)
  have hfull : ∀ calls : List (EnumeratorCall α),
      calls.map (fun c => (c.index, c.value)) <+: xs.enum → calls.length = a.Count →
      calls.map (fun c => (c.index, c.value)) = xs.enum := by
    intro calls hpre hl
    refine List.IsPrefix.eq_of_length hpre ?_
    simp [hl, DKArray.Count, hlen]
  cases enumerator with
  | one f =>
    obtain ⟨s1, a1, calls, hrun, hmap, hstop⟩ :=
      DKArray.enumerateForwardOneFrom_calls f xs a.count 0 s a (by omega) hslot
    have hmap' : calls.map (fun c => (c.index, c.value)) = xs.enum := by
      simpa [List.enum] using hmap
    have hl : calls.length = a.Count := by
      have := congrArg List.length hmap'
      simpa [DKArray.Count, hlen] using this
    refine ⟨s1, a1, calls, ?_, by rw [hmap'], ?_, ?_, fun _ => ⟨hmap', hl⟩,
      fun _ _ => ⟨hmap', hl⟩⟩
    · simp only [DKArray.EnumerateForward, DKArray.EnumerateForwardOne, hrun]
    · intro k c hk hc
      have := hstop c (List.getElem?_mem hk)
      rw [this] at hc
      cases hc
    · intro hlt
      omega
  | two f =>
    obtain ⟨s1, a1, calls, hrun, hpre, _, hlast, hearly⟩ :=
      DKArray.enumerateForwardTwoFrom_calls f xs a.count 0 false s a (by omega) hslot
    have hpre' : calls.map (fun c => (c.index, c.value)) <+: xs.enum := by
      simpa [List.enum] using hpre
    have hearly' : calls.length < a.Count → ∃ c, calls.getLast? = some c ∧ c.stop = true := by
      intro hlt
      rcases hearly hlt with hst | hc
      · cases hst
      · exact hc
    refine ⟨s1, a1, calls, ?_, hpre', hlast, hearly', ?_, ?_⟩
    · simp only [DKArray.EnumerateForward, DKArray.EnumerateForwardTwo, hrun]
    · intro hall
      have hl : calls.length = a.Count := by
        by_contra hne
        have hle : calls.length ≤ a.Count := by
          have := hpre'.length_le
          simpa [DKArray.Count, hlen] using this
        obtain ⟨c, hc, hcs⟩ := hearly' (by omega)
        have := hall c (List.mem_of_getLast?_eq_some hc)
        rw [this] at hcs
        cases hcs
      exact ⟨hfull calls hpre' hl, hl⟩
    · intro f' hf'
      cases hf'

/-- The array made by the default constructor holds no element. -/
theorem DKArray.new_holds : (DKArray.new : DKArray α).Holds [] :=
  ⟨rfl, Nat.le_refl _, rfl, fun i hi => absurd hi (Nat.not_lt_zero i)⟩

/-- An array made by `ofList` with enough capacity holds its list. -/
theorem DKArray.ofList_holds (xs : List α) (capacity : Nat) (h : xs.length ≤ capacity) :
    (DKArray.ofList xs capacity).Holds xs := by
  refine ⟨rfl, h, rfl, ?_⟩
  intro i hi
  have hi2 : i < capacity := Nat.lt_of_lt_of_le hi h
  simp [DKArray.slot, DKArray.ofList, hi2]

/-- C12, witness: `Add(40)` on a full array that holds 10, 20, 30. -/
theorem Add_appends_to_tail_witness :
    ∃ a1, (DKArray.ofList [10, 20, 30] 3).Add false true 40 = Except.ok (3, a1)
      ∧ a1.Count = 4
      ∧ a1.slot 3 = some 40
      ∧ (∀ i, i < 3 → a1.slot i = (DKArray.ofList [10, 20, 30] 3).slot i)
      ∧ a1.Holds [10, 20, 30, 40] :=
  Add_appends_to_tail false (DKArray.ofList [10, 20, 30] 3) [10, 20, 30] 40
    (DKArray.ofList_holds _ _ (by decide))

/-- C13, witness: `Insert(15, 1)` on an array that holds 10, 20, 30. -/
theorem Insert_at_clamped_position_witness :
    ∃ a1, (DKArray.ofList [10, 20, 30] 3).Insert false true (Ref.outside 15) 1
        = Except.ok (1, a1)
      ∧ a1.Holds [10, 15, 20, 30] :=
  Insert_at_clamped_position false (DKArray.ofList [10, 20, 30] 3) [10, 20, 30] 15 1
    (DKArray.ofList_holds _ _ (by decide))

/-- C14, witness: two values inserted at position 9 of an array that holds 10,
20, 30 are appended, by both overloads. -/
theorem InsertArray_at_clamped_position_witness :
    (∃ a1, (DKArray.ofList [10, 20, 30] 4).InsertArray false true (Source.outside [1, 2]) 2 9
          = Except.ok (3, a1)
        ∧ a1.Holds [10, 20, 30, 1, 2]
        ∧ a1.Count = 5)
      ∧ ∃ a2, (DKArray.ofList [10, 20, 30] 4).InsertList false true [1, 2] 9 = Except.ok (3, a2)
        ∧ a2.Holds [10, 20, 30, 1, 2]
        ∧ a2.Count = 5 :=
  InsertArray_at_clamped_position false (DKArray.ofList [10, 20, 30] 4) [10, 20, 30] [1, 2] 9
    (DKArray.ofList_holds _ _ (by decide))

/-- C15, witness: `Remove(1)` on an array that holds 10, 20, 30. -/
theorem Remove_erases_one_witness :
    ∃ a1, (DKArray.ofList [10, 20, 30] 4).Remove 1 = Except.ok (2, a1)
      ∧ a1.Count = 2
      ∧ a1.Holds [10, 30] :=
  (Remove_erases_one (DKArray.ofList [10, 20, 30] 4) [10, 20, 30] 1
    (DKArray.ofList_holds _ _ (by decide))).1 (by decide)

/-- C16, witness: `Remove(1, 5)` on an array that holds 10, 20, 30 removes the
two elements from index 1 on. -/
theorem RemoveCount_removes_range_witness :
    ∃ a1, (DKArray.ofList [10, 20, 30] 4).RemoveCount 1 5 = Except.ok (a1.Count, a1)
      ∧ a1.Count = 1
      ∧ a1.Holds [10] :=
  (RemoveCount_removes_range (DKArray.ofList [10, 20, 30] 4) [10, 20, 30] 1 5
    (DKArray.ofList_holds _ _ (by decide))).1 (by decide)

/-- C17, witness: `CopyValue` at index 3 of an array of three elements returns
`false` and leaves the output variable 7 as it was. -/
theorem CopyValue_checks_index_witness :
    (DKArray.ofList [10, 20, 30] 4).CopyValue (Ref.outside 7) 3
      = Except.ok (false, Ref.outside 7, DKArray.ofList [10, 20, 30] 4) :=
  (CopyValue_checks_index (DKArray.ofList [10, 20, 30] 4) [10, 20, 30] 7 3
    (DKArray.ofList_holds _ _ (by decide))).2 (by decide)

/-- C18, witness: an enumerator that sets the boolean on the element 20 of an
array that holds 10, 20, 30. -/
theorem EnumerateForward_visits_in_order_witness :
    ∃ s1 a1 calls,
      (DKArray.ofList [10, 20, 30] 4).EnumerateForward (stopAt 20) 0 = Except.ok (s1, a1, calls)
      ∧ calls.map (fun c => (c.index, c.value)) <+: [(0, 10), (1, 20), (2, 30)]
      ∧ (∀ k c, calls[k]? = some c → c.stop = true → k + 1 = calls.length)
      ∧ (calls.length < 3 → ∃ c, calls.getLast? = some c ∧ c.stop = true)
      ∧ ((∀ c ∈ calls, c.stop = false) →
          calls.map (fun c => (c.index, c.value)) = [(0, 10), (1, 20), (2, 30)]
            ∧ calls.length = 3)
      ∧ (∀ f, stopAt 20 = Enumerator.one f →
          calls.map (fun c => (c.index, c.value)) = [(0, 10), (1, 20), (2, 30)]
            ∧ calls.length = 3) :=
  EnumerateForward_visits_in_order (stopAt 20) 0 (DKArray.ofList [10, 20, 30] 4) [10, 20, 30]
    (DKArray.ofList_holds _ _ (by decide))

end DKFoundation

namespace DKFramework.Private.Vulkan

/-- C21: the sources keep the checks that depend on the build in a separate
`DKASSERT_DEBUG` family, so `DKASSERT` is an assertion that stops the call and
`Submit` is taken with the assertion checked. For every `Submit` call whose
native queue submission fails, the call stops at
`DKASSERT(err == VK_SUCCESS)` and the registry after the call is the registry
before it; and whenever the registry after a call differs from the registry
before it, the native submission was accepted. -/
theorem Submit_failed_submission_leaves_registry (q : CommandQueue) (newFence : VkFence)
    (err : VkResult) (submits : List VkSubmitInfo) (submitCount : Nat)
    (callback : Option DKOperation) (dev : GraphicsDevice) :
    (err ≠ VK_SUCCESS →
        (q.Submit true newFence err submits submitCount callback dev).2.completionHandlers
            = dev.completionHandlers
          ∧ (q.Submit true newFence err submits submitCount callback dev).1
            = Outcome.assertionFailed)
      ∧ ((q.Submit true newFence err submits submitCount callback dev).2.completionHandlers
            ≠ dev.completionHandlers →
          err = VK_SUCCESS) := by
  have hfail : err ≠ VK_SUCCESS →
      (q.Submit true newFence err submits submitCount callback dev).2.completionHandlers
          = dev.completionHandlers
        ∧ (q.Submit true newFence err submits submitCount callback dev).1
          = Outcome.assertionFailed := by
    intro herr
    cases callback <;>
      simp [CommandQueue.Submit, vkQueueSubmit, herr, DKASSERT, GraphicsDevice.GetFence]
  refine ⟨hfail, fun hne => ?_⟩
  by_contra herr
  exact hne (hfail herr).1

/-- C21, witness: a submission with callback 5 and fence 7 that reports a lost
device, on a registry that holds one earlier entry. -/
theorem Submit_failed_submission_leaves_registry_witness :
    (sampleQueue.Submit true 7 VK_ERROR_DEVICE_LOST [11] 1 (some 5)
        ⟨[3], [], [(3, some 4)]⟩).2.completionHandlers = [(3, some 4)]
      ∧ (sampleQueue.Submit true 7 VK_ERROR_DEVICE_LOST [11] 1 (some 5)
        ⟨[3], [], [(3, some 4)]⟩).1 = Outcome.assertionFailed :=
  (Submit_failed_submission_leaves_registry sampleQueue 7 VK_ERROR_DEVICE_LOST [11] 1 (some 5)
    ⟨[3], [], [(3, some 4)]⟩).1 (by decide)

/-- C22: for the Vulkan copy encoder, `IsCompleted()` returns `true` exactly when
the recording encoder has been released (`encoder` is null) and `false`
exactly while it is held, and any number of calls in a row leave the encoder
object as it was and all give that same answer. -/
theorem IsCompleted_is_pure_query (e : CopyCommandEncoder) (n : Nat) :
    (e.IsCompleted = true ↔ e.encoder = none)
      ∧ (e.IsCompleted = false ↔ ∃ enc, e.encoder = some enc)
      ∧ (e.callIsCompletedTimes n).2 = e
      ∧ (e.callIsCompletedTimes n).1 = List.replicate n e.IsCompleted := by
  refine ⟨?_, ?_, ?_, ?_⟩
  · cases h : e.encoder <;> simp [CopyCommandEncoder.IsCompleted, h]
  · cases h : e.encoder <;> simp [CopyCommandEncoder.IsCompleted, h]
  · induction n with
    | zero => rfl
    | succ n ih =>
      simpa [CopyCommandEncoder.callIsCompletedTimes, CopyCommandEncoder.callIsCompleted]
        using ih
  · induction n with
    | zero => rfl
    | succ n ih =>
      simp [CopyCommandEncoder.callIsCompletedTimes, CopyCommandEncoder.callIsCompleted, ih,
        List.replicate_succ]

end DKFramework.Private.Vulkan
